import Mathlib

/-
Verification of the deterministic escalation-signal detection and correlation
engine of the devops_incident_suite repository.  The definitions below are a
shallow embedding of src/devops_incident_suite/agents/predictive_risk.py and
src/devops_incident_suite/agents/root_cause.py.  Log records are Python dicts
whose fields may be absent; `Option` captures absence and the `get` defaults
of the source are applied at each use site.
-/

set_option maxHeartbeats 1000000

namespace DevOpsSuite

/-- A structured log record.  Every field of the underlying dict may be
absent; the Python accessors `e.get(key, default)` are modelled by `Option`
plus the per-site defaults below. -/
structure LogEntry where
  timestamp : Option String
  service : Option String
  level : Option String
  message : Option String
  line_number : Option Int
deriving DecidableEq

/-- `e.get("timestamp", "")` -/
def tsOf (e : LogEntry) : String := e.timestamp.getD ""

/-- `e.get("service", "unknown")` (predictive_risk.run) -/
def svcOfRisk (e : LogEntry) : String := e.service.getD "unknown"

/-- `e.get("service", "")` (root_cause) -/
def svcOfRoot (e : LogEntry) : String := e.service.getD ""

/-- `e.get("level", "")` -/
def levelOf (e : LogEntry) : String := e.level.getD ""

/-- `e.get("message", "")` -/
def msgOf (e : LogEntry) : String := e.message.getD ""

/-- `e.get("line_number", 0)` -/
def lineNum (e : LogEntry) : Int := e.line_number.getD 0

/-! ### Timestamp parsing (`_parse_timestamp`)

`datetime.strptime(ts.strip(), "%Y-%m-%d %H:%M:%S")`, returning `None` on
failure.  The parsed instant is represented as an absolute count of seconds,
which preserves ordering and exact second differences.  The embedding accepts
the canonical zero-padded form of the fixed format. -/

def isLeap (y : Nat) : Bool := y % 4 = 0 && (y % 100 ≠ 0 || y % 400 = 0)

def daysInMonth (y m : Nat) : Nat :=
  if m = 2 then (if isLeap y then 29 else 28)
  else if m = 4 ∨ m = 6 ∨ m = 9 ∨ m = 11 then 30 else 31

/-- Days since 0000-03-01 of a civil date (standard era-based formula);
exact day differences are all that the engine consumes. -/
def daysFromCivil (y m d : Nat) : Nat :=
  let y' := if m ≤ 2 then y - 1 else y
  let era := y' / 400
  let yoe := y' % 400
  let mp := (m + 9) % 12
  let doy := (153 * mp + 2) / 5 + d - 1
  era * 146097 + (yoe * 365 + yoe / 4 - yoe / 100 + doy)

/-- Numeric value of a digit character. -/
def dval (c : Char) : Nat := c.toNat - 48

/-- `str.strip()`: drop whitespace at both ends. -/
def trimL (cs : List Char) : List Char :=
  ((cs.dropWhile Char.isWhitespace).reverse.dropWhile Char.isWhitespace).reverse

/-- `_parse_timestamp`: parse `YYYY-MM-DD HH:MM:SS` (whitespace-trimmed)
into absolute seconds, `none` on any other shape or out-of-range field. -/
def parseTimestamp (ts : String) : Option Nat :=
  match trimL ts.toList with
  | [y1, y2, y3, y4, '-', mo1, mo2, '-', d1, d2, ' ', h1, h2, ':', mi1, mi2, ':', s1, s2] =>
    if y1.isDigit && y2.isDigit && y3.isDigit && y4.isDigit && mo1.isDigit && mo2.isDigit &&
       d1.isDigit && d2.isDigit && h1.isDigit && h2.isDigit && mi1.isDigit && mi2.isDigit &&
       s1.isDigit && s2.isDigit then
      let y := ((dval y1 * 10 + dval y2) * 10 + dval y3) * 10 + dval y4
      let mo := dval mo1 * 10 + dval mo2
      let d := dval d1 * 10 + dval d2
      let h := dval h1 * 10 + dval h2
      let mi := dval mi1 * 10 + dval mi2
      let s := dval s1 * 10 + dval s2
      if 1 ≤ y && 1 ≤ mo && mo ≤ 12 && 1 ≤ d && d ≤ daysInMonth y mo &&
         h ≤ 23 && mi ≤ 59 && s ≤ 59 then
        some (daysFromCivil y mo d * 86400 + h * 3600 + mi * 60 + s)
      else none
    else none
  | _ => none

/-! ### Stable sorting by a natural-number key

Python's `list.sort(key=...)` is a stable ascending sort; insertion via
`insKey` places a new element after all existing elements with an equal or
smaller key, so folding from the left is stable. -/

def insKey {α : Type} (key : α → Nat) (x : α) : List α → List α
  | [] => [x]
  | y :: ys => if key x < key y then x :: y :: ys else y :: insKey key x ys

def sortKey {α : Type} (key : α → Nat) (l : List α) : List α :=
  l.foldl (fun acc x => insKey key x acc) []

/-- The time-parsable records of a list, paired with their instants and
sorted ascending by instant (`timestamps.sort(key=lambda x: x[0])`). -/
def timedOf (entries : List LogEntry) : List (Nat × LogEntry) :=
  sortKey Prod.fst (entries.filterMap (fun e => (parseTimestamp (tsOf e)).map (fun t => (t, e))))

/-! ### FrequencyAccelerationDetector (`_detect_frequency_acceleration`) -/

/-- Consecutive differences, in seconds (`(t_i - t_{i-1}).total_seconds()`). -/
def diffs : List Nat → List Int
  | a :: b :: r => ((b : Int) - (a : Int)) :: diffs (b :: r)
  | _ => []

/-- `sum(1 for i in range(1, len(gaps)) if gaps[i] < gaps[i-1])` -/
def decCount : List Int → Nat
  | a :: b :: r => (if b < a then 1 else 0) + decCount (b :: r)
  | _ => 0

/-- The inter-arrival gap sequence of a service's records. -/
def gapsOf (entries : List LogEntry) : List Int := diffs ((timedOf entries).map Prod.fst)

/-- Per-service body of `_detect_frequency_acceleration`: does the detector
emit a signal for this service's entries? -/
def detectFreqService (entries : List LogEntry) : Bool :=
  let timed := timedOf entries
  if timed.length < 3 then false
  else
    let gaps := diffs (timed.map Prod.fst)
    if 2 ≤ gaps.length then
      decide (gaps.length / 2 ≤ decCount gaps) && decide (1 ≤ decCount gaps)
    else false

/-- A detected escalation signal.  The evidence strings of the source are
presentation-only payload and are not modelled; `pattern` is `""` for
frequency-acceleration signals. -/
structure Signal where
  service : String
  signal_type : String
  pattern : String
deriving DecidableEq

/-- `_detect_frequency_acceleration` over the per-service partition. -/
def detectFrequencyAcceleration (p : List (String × List LogEntry)) : List Signal :=
  p.filterMap (fun se =>
    if detectFreqService se.2 then some ⟨se.1, "frequency_acceleration", ""⟩ else none)

/-! ### TimeWindowGrouper (`_build_time_groups`) -/

/-- Default time window (seconds) for grouping related events. -/
def TIME_WINDOW : Nat := 60

/-- The grouping loop of `_build_time_groups`: `cur` is the current group
(in order), `start` its anchor instant; a group is kept only if its size
is at least 2. -/
def groupLoop (w : Nat) : List (Nat × LogEntry) → List LogEntry → Nat → List (List LogEntry)
  | [], cur, _ => if 2 ≤ cur.length then [cur] else []
  | (dt, e) :: rest, cur, start =>
    if (dt : Int) - (start : Int) ≤ (w : Int) then groupLoop w rest (cur ++ [e]) start
    else (if 2 ≤ cur.length then [cur] else []) ++ groupLoop w rest [e] dt

/-- `_build_time_groups(entries, window)`. -/
def buildTimeGroups (entries : List LogEntry) (w : Nat := TIME_WINDOW) : List (List LogEntry) :=
  match timedOf entries with
  | [] => []
  | (t, e) :: rest => groupLoop w rest [e] t

/-! ### Character-level helpers for the pattern library

The source's regular expressions are modelled by direct scanners over
character lists with Python `re` semantics: `re.search` tries start
positions left to right, `.` matches any character except a newline, `.*`
and `\d+` are greedy with backtracking, and `re.IGNORECASE` compares
case-insensitively (ASCII). -/

def toLowerL (cs : List Char) : List Char := cs.map Char.toLower

/-- `s.lower()` (ASCII). -/
def strLower (s : String) : String := String.mk (toLowerL s.toList)

/-- `s.upper()` (ASCII). -/
def strUpper (s : String) : String := String.mk (s.toList.map Char.toUpper)

/-- Python string slicing `s[:n]`. -/
def pyTake (s : String) (n : Nat) : String := String.mk (s.toList.take n)

/-- Case-insensitive literal match at the head; returns the remainder. -/
def litCI : List Char → List Char → Option (List Char)
  | [], cs => some cs
  | _ :: _, [] => none
  | p :: ps, c :: cs => if c.toLower = p.toLower then litCI ps cs else none

/-- `\s*`: drop leading whitespace. -/
def dropSpaces (cs : List Char) : List Char := cs.dropWhile Char.isWhitespace

/-- Exact substring containment (`needle in haystack` on lowered strings is
expressed by lowering both arguments at the call site). -/
def containsSub (needle : List Char) : List Char → Bool
  | [] => needle.isEmpty
  | c :: cs => (litCI needle (c :: cs)).isSome || containsSub needle cs

/-- Maximal digit run at the head, as (value, run length, rest); `none` when
the head is not a digit. -/
def digitRun : List Char → Nat → Option (Nat × List Char)
  | [], acc => some (acc, [])
  | c :: cs, acc =>
    if c.isDigit then digitRun cs (acc * 10 + dval c)
    else some (acc, c :: cs)

/-- `(\d+)/(\d+)` matched at the head: greedy first run, literal `/`,
greedy second run. -/
def ratioAt (cs : List Char) : Option (Nat × Nat) :=
  match cs with
  | c :: rest =>
    if c.isDigit then
      match digitRun (c :: rest) 0 with
      | some (cur, '/' :: rest2) =>
        match rest2 with
        | d :: rest3 =>
          if d.isDigit then
            match digitRun (d :: rest3) 0 with
            | some (tot, _) => some (cur, tot)
            | none => none
          else none
        | [] => none
      | _ => none
    else none
  | [] => none

/-- `re.search(r"(\d+)/(\d+)", msg)`: leftmost match of a ratio. -/
def findFrac : List Char → Option (Nat × Nat)
  | [] => none
  | c :: cs =>
    match ratioAt (c :: cs) with
    | some r => some r
    | none => findFrac cs

/-! ### KNOWN_PATTERNS signature matchers -/

/-- One alternative of the brute-force signature matched at the head. -/
def bruteAt (cs : List Char) : Bool :=
  -- failed.*(?:auth|login|credentials)  (the dot does not cross a newline)
  (match litCI "failed".toList cs with
   | some rest => dotStarThen rest
   | none => false)
  -- brute\s*force
  || (match litCI "brute".toList cs with
      | some rest => (litCI "force".toList (dropSpaces rest)).isSome
      | none => false)
  -- locked
  || (litCI "locked".toList cs).isSome
  -- failed\s*attempts
  || (match litCI "failed".toList cs with
      | some rest => (litCI "attempts".toList (dropSpaces rest)).isSome
      | none => false)
where
  /-- `.*(?:auth|login|credentials)`: one of the keywords occurs later with
  no newline in between. -/
  dotStarThen : List Char → Bool
    | [] => false
    | c :: cs =>
      (litCI "auth".toList (c :: cs)).isSome || (litCI "login".toList (c :: cs)).isSome ||
      (litCI "credentials".toList (c :: cs)).isSome ||
      (c ≠ '\n' && dotStarThen cs)

/-- `KNOWN_PATTERNS["brute_force"].search(msg)` as a Boolean. -/
def bruteSearch : List Char → Bool
  | [] => false
  | c :: cs => bruteAt (c :: cs) || bruteSearch cs

/-- `disk.*(\d+)%` after a successful `disk`: the greedy `.*` leaves exactly
one digit for the capture group, so the captured value is the single digit
standing immediately before the last reachable `%` (no newline crossed). -/
def diskTail : List Char → Option Nat
  | [] => none
  | [_] => none
  | c1 :: c2 :: rest =>
    if c1 = '\n' then none
    else
      match diskTail (c2 :: rest) with
      | some v => some v
      | none => if c1.isDigit && c2 = '%' then some (dval c1) else none

/-- `KNOWN_PATTERNS["disk_critical"].search(msg)` with its first capture
group converted by `int(...)`: leftmost `disk` (case-insensitive) for which
the rest of the pattern matches. -/
def diskSearch : List Char → Option Nat
  | [] => none
  | c :: cs =>
    match litCI "disk".toList (c :: cs) with
    | some rest =>
      (match diskTail rest with
       | some v => some v
       | none => diskSearch cs)
    | none => diskSearch cs

/-- One alternative of `(connection\s*pool|pool\s*utilization)` at the head. -/
def poolAt (cs : List Char) : Bool :=
  (match litCI "connection".toList cs with
   | some rest => (litCI "pool".toList (dropSpaces rest)).isSome
   | none => false)
  || (match litCI "pool".toList cs with
      | some rest => (litCI "utilization".toList (dropSpaces rest)).isSome
      | none => false)

/-- `KNOWN_PATTERNS["pool_exhaustion"].search(msg)` as a Boolean. -/
def poolSearch : List Char → Bool
  | [] => false
  | c :: cs => poolAt (c :: cs) || poolSearch cs

/-- One alternative of `(circuit\s*breaker|retries?\s*exhausted)` at the head. -/
def circuitAt (cs : List Char) : Bool :=
  (match litCI "circuit".toList cs with
   | some rest => (litCI "breaker".toList (dropSpaces rest)).isSome
   | none => false)
  || (match litCI "retrie".toList cs with
      | some rest =>
        (litCI "exhausted".toList (dropSpaces rest)).isSome ||
        (match rest with
         | c :: rest2 =>
           c.toLower = 's' && (litCI "exhausted".toList (dropSpaces rest2)).isSome
         | [] => false)
      | none => false)

/-- `KNOWN_PATTERNS["circuit_breaker"].search(msg)` as a Boolean. -/
def circuitSearch : List Char → Bool
  | [] => false
  | c :: cs => circuitAt (c :: cs) || circuitSearch cs

/-! ### KnownPatternDetector (`_detect_known_patterns`) -/

/-- `current / total > 0.75` of the source, compared over exact rationals
(`4*current > 3*total`).  Python evaluates the quotient in binary floating
point, which agrees with the exact comparison except when the quotient lies
within one rounding error of 0.75. -/
def ratioAbove (cur tot : Nat) : Bool := 3 * tot < 4 * cur

/-- The disk_critical scan of one service: first entry whose captured
percentage is strictly greater than 80 produces a signal and stops the scan
(`break` is reached only after appending). -/
def diskScan (service : String) : List LogEntry → List Signal
  | [] => []
  | e :: rest =>
    match diskSearch (msgOf e).toList with
    | some pct =>
      if 80 < pct then [⟨service, "known_pattern", "disk_critical"⟩]
      else diskScan service rest
    | none => diskScan service rest

/-- The pool_exhaustion scan of one service: the first entry matching a pool
phrase and containing a ratio with `total > 0` and `current/total > 0.75`
produces a signal and stops the scan. -/
def poolScan (service : String) : List LogEntry → List Signal
  | [] => []
  | e :: rest =>
    if poolSearch (msgOf e).toList then
      match findFrac (msgOf e).toList with
      | some (cur, tot) =>
        if 0 < tot && ratioAbove cur tot then [⟨service, "known_pattern", "pool_exhaustion"⟩]
        else poolScan service rest
      | none => poolScan service rest
    else poolScan service rest

/-- The circuit_breaker scan of one service. -/
def circuitScan (service : String) : List LogEntry → List Signal
  | [] => []
  | e :: rest =>
    if circuitSearch (msgOf e).toList then [⟨service, "known_pattern", "circuit_breaker"⟩]
    else circuitScan service rest

/-- The brute_force check of one service: at least 3 entries matching the
signature. -/
def bruteCheck (service : String) (entries : List LogEntry) : List Signal :=
  if 3 ≤ (entries.filter (fun e => bruteSearch (msgOf e).toList)).length then
    [⟨service, "known_pattern", "brute_force"⟩]
  else []

/-- `_detect_known_patterns` over the per-service partition: four
independent checks per service, in source order. -/
def detectKnownPatterns (p : List (String × List LogEntry)) : List Signal :=
  p.foldr (fun se acc =>
    bruteCheck se.1 se.2 ++ diskScan se.1 se.2 ++ poolScan se.1 se.2 ++
    circuitScan se.1 se.2 ++ acc) []

/-! ### Actionable-level filter and per-service partition -/

/-- `{"CRITICAL", "ERROR", "WARN", "WARNING"}` -/
def actionableLevels : List String := ["CRITICAL", "ERROR", "WARN", "WARNING"]

/-- `e.get("level", "") in actionable_levels` -/
def isActionable (e : LogEntry) : Bool := actionableLevels.contains (levelOf e)

/-- root_cause.run: `[e for e in log_entries if e.get("level","") in actionable_levels]` -/
def actionableOf (entries : List LogEntry) : List LogEntry := entries.filter isActionable

/-- Append `e` to the group of key `k`, creating the key at the end on first
insertion (`defaultdict(list)` preserves key insertion order). -/
def addToGroup (k : String) (e : LogEntry) :
    List (String × List LogEntry) → List (String × List LogEntry)
  | [] => [(k, [e])]
  | (k', g) :: rest =>
    if k' = k then (k', g ++ [e]) :: rest else (k', g) :: addToGroup k e rest

/-- Loop body of the partition: append an actionable record to its
service's group. -/
def ebsStep (m : List (String × List LogEntry)) (e : LogEntry) : List (String × List LogEntry) :=
  if isActionable e then addToGroup (svcOfRisk e) e m else m

/-- predictive_risk.run lines 236-242: keep actionable records and partition
them by `e.get("service", "unknown")`. -/
def entriesByService (entries : List LogEntry) : List (String × List LogEntry) :=
  entries.foldl ebsStep []

/-- First-match association lookup (Python dict lookup; keys are unique by
construction). -/
def lookupA {β : Type} (k : String) : List (String × β) → Option β
  | [] => none
  | (k', v) :: rest => if k' = k then some v else lookupA k rest

/-! ### CrossReferenceClusterer (`_find_cross_references`) -/

/-- Add index `i` to the set stored under key `k`, creating the key at the
end on first insertion (`defaultdict(set)`; dict iteration is insertion
order, and set membership suppresses duplicates). -/
def addIdx (k : String) (i : Nat) : List (String × List Nat) → List (String × List Nat)
  | [] => [(k, [i])]
  | (k', l) :: rest =>
    if k' = k then (k', if l.contains i then l else l ++ [i]) :: rest
    else (k', l) :: addIdx k i rest

/-- The per-entry inner loop over `all_services`: for every known service
whose lowered name differs from the entry's own service and occurs in the
lowered message, record the index under both service keys (the referenced
service first, as in the source). -/
def crossRefEntry (svcs : List String) (esvc : String) (msgL : List Char) (i : Nat)
    (m : List (String × List Nat)) : List (String × List Nat) :=
  svcs.foldl (fun acc svc =>
    if strLower svc ≠ esvc && containsSub (toLowerL svc.toList) msgL then
      addIdx esvc i (addIdx (strLower svc) i acc)
    else acc) m

/-- `for i, entry in enumerate(entries)`: accumulate the cross-reference
index map. -/
def crossRefFold (svcs : List String) : List LogEntry → Nat → List (String × List Nat) →
    List (String × List Nat)
  | [], _, m => m
  | e :: rest, i, m =>
    crossRefFold svcs rest (i + 1)
      (crossRefEntry svcs (strLower (svcOfRoot e)) (toLowerL (msgOf e).toList) i m)

/-- Ascending sort of an index set (`sorted(cluster_indices)`). -/
def sortNat (l : List Nat) : List Nat := sortKey id l

/-- Cluster-building pass of `_find_cross_references`: greedily consume the
accumulated index sets (dict-value order), excluding indices already claimed;
`seen` is updated only when a cluster is actually emitted. -/
def clusterGo (entries : List LogEntry) : List (List Nat) → List Nat → List (List LogEntry)
  | [], _ => []
  | idxs :: rest, seen =>
    if 2 ≤ (idxs.filter (fun i => !seen.contains i)).length then
      if 2 ≤ ((sortNat (idxs.filter (fun i => !seen.contains i))).filterMap
          (fun i => entries.get? i)).length then
        ((sortNat (idxs.filter (fun i => !seen.contains i))).filterMap
            (fun i => entries.get? i)) ::
          clusterGo entries rest (seen ++ idxs.filter (fun i => !seen.contains i))
      else clusterGo entries rest seen
    else clusterGo entries rest seen

/-- `_find_cross_references(entries, all_services)`. -/
def findCrossReferences (entries : List LogEntry) (svcs : List String) :
    List (List LogEntry) :=
  if (crossRefFold svcs entries 0 []).isEmpty then []
  else clusterGo entries ((crossRefFold svcs entries 0 []).map Prod.snd) []

/-! ### CandidateMerger (`_merge_candidates`) -/

/-- The line-number set of a group (`{e.get("line_number", 0) for e in g}`),
as a duplicate-free list. -/
def lineSet (g : List LogEntry) : List Int := (g.map lineNum).dedup

/-- Python set equality between two duplicate-free lists. -/
def sameSet (a b : List Int) : Bool := a.all (b.contains ·) && b.all (a.contains ·)

/-- `line_nums & tg_lines` -/
def overlapOf (cluster tg : List LogEntry) : List Int :=
  (lineSet cluster).filter (fun x => (lineSet tg).contains x)

/-- Insert-or-update of the dict comprehension
`{e.get("line_number", 0): e for e in cluster + tg}`: an existing key keeps
its position and takes the new value, a new key is appended. -/
def updAssoc (k : Int) (v : LogEntry) : List (Int × LogEntry) → List (Int × LogEntry)
  | [] => [(k, v)]
  | (k', v') :: rest => if k' = k then (k, v) :: rest else (k', v') :: updAssoc k v rest

/-- The merged dict of a (cross-ref cluster, time group) pair. -/
def mergedAssoc (cluster tg : List LogEntry) : List (Int × LogEntry) :=
  (cluster ++ tg).foldl (fun m e => updAssoc (lineNum e) e m) []

/-- `list(merged.values())` -/
def mergeTwo (cluster tg : List LogEntry) : List LogEntry :=
  (mergedAssoc cluster tg).map Prod.snd

/-- `set(merged.keys())` -/
def mergedKeys (cluster tg : List LogEntry) : List Int :=
  (mergedAssoc cluster tg).map Prod.fst

/-- Accumulator of `_merge_candidates`: `(candidates, seen_sets)`. -/
abbrev MergeAcc := List (List LogEntry) × List (List Int)

/-- Tier-1 inner loop: one cross-ref cluster against every time group. -/
def tier1Inner (cluster : List LogEntry) : List (List LogEntry) → MergeAcc → MergeAcc
  | [], acc => acc
  | tg :: tgs, acc =>
    if 2 ≤ (overlapOf cluster tg).length then
      if acc.2.any (sameSet (mergedKeys cluster tg)) then tier1Inner cluster tgs acc
      else
        tier1Inner cluster tgs
          (acc.1 ++ [mergeTwo cluster tg], acc.2 ++ [mergedKeys cluster tg])
    else tier1Inner cluster tgs acc

/-- Tier-1 outer loop over the cross-ref clusters. -/
def tier1Outer (tgs : List (List LogEntry)) : List (List LogEntry) → MergeAcc → MergeAcc
  | [], acc => acc
  | cluster :: crs, acc => tier1Outer tgs crs (tier1Inner cluster tgs acc)

/-- Tier 2: emit each cross-ref cluster whose line-number set is unseen. -/
def tier2Go : List (List LogEntry) → MergeAcc → MergeAcc
  | [], acc => acc
  | cluster :: crs, acc =>
    if acc.2.any (sameSet (lineSet cluster)) then tier2Go crs acc
    else tier2Go crs (acc.1 ++ [cluster], acc.2 ++ [lineSet cluster])

/-- Tier 3: emit each time group whose line-number set is unseen. -/
def tier3Go : List (List LogEntry) → MergeAcc → MergeAcc
  | [], acc => acc
  | tg :: tgs, acc =>
    if acc.2.any (sameSet (lineSet tg)) then tier3Go tgs acc
    else tier3Go tgs (acc.1 ++ [tg], acc.2 ++ [lineSet tg])

/-- `if not candidates:` guard before tier 2. -/
def mergeTiers2 (crs : List (List LogEntry)) (acc : MergeAcc) : MergeAcc :=
  if acc.1.isEmpty then tier2Go crs acc else acc

/-- `if not candidates:` guard before tier 3. -/
def mergeTiers3 (tgs : List (List LogEntry)) (acc : MergeAcc) : MergeAcc :=
  if acc.1.isEmpty then tier3Go tgs acc else acc

/-- `_merge_candidates(time_groups, cross_refs)`. -/
def mergeCandidates (tgs crs : List (List LogEntry)) : List (List LogEntry) :=
  if tgs.isEmpty && crs.isEmpty then []
  else (mergeTiers3 tgs (mergeTiers2 crs (tier1Outer tgs crs ([], [])))).1

/-- The standalone output of each tier, for the tier-exclusivity statement. -/
def tier1Out (tgs crs : List (List LogEntry)) : List (List LogEntry) :=
  (tier1Outer tgs crs ([], [])).1

def tier2Out (crs : List (List LogEntry)) : List (List LogEntry) :=
  (tier2Go crs ([], [])).1

def tier3Out (tgs : List (List LogEntry)) : List (List LogEntry) :=
  (tier3Go tgs ([], [])).1

/-! ### root_cause.run: the deterministic candidate pipeline -/

/-- Duplicate-preserving-order service-name collection:
`{e.get("service","") for e in log_entries if e.get("service","")}` with
`all_services.discard("unknown")`.  A Python set iterates in an unspecified
(hash-based) order; a fixed deterministic realization is used here, and
every property proved below holds for an arbitrary order. -/
def allServices (entries : List LogEntry) : List String :=
  ((entries.filterMap (fun e =>
    if svcOfRoot e ≠ "" then some (svcOfRoot e) else none)).dedup).filter (· ≠ "unknown")

/-- The deterministic part of root_cause.run up to the candidate clusters
handed to the reasoning collaborator. -/
def candidatesOf (log_entries : List LogEntry) : List (List LogEntry) :=
  let actionable := actionableOf log_entries
  if actionable.length < 2 then []
  else
    mergeCandidates (buildTimeGroups actionable)
      (findCrossReferences actionable (allServices log_entries))

/-! ### JSON values and `json.loads`

The collaborator response is parsed with `json.loads`.  `JVal` is the value
universe; `jsonLoads` models the parser on the JSON subset without
floating-point literals (objects, arrays, strings with the common escapes,
integers, booleans, null); any other input yields `none`, as
`json.JSONDecodeError` does in the source. -/

inductive JVal where
  | jnull
  | jbool (b : Bool)
  | jnum (n : Int)
  | jstr (s : String)
  | jarr (items : List JVal)
  | jobj (fields : List (String × JVal))

/-- JSON insignificant whitespace. -/
def jskip (cs : List Char) : List Char :=
  cs.dropWhile (fun c => c = ' ' || c = '\t' || c = '\n' || c = '\r')

/-- Case-sensitive literal consume. -/
def litEx : List Char → List Char → Option (List Char)
  | [], cs => some cs
  | _ :: _, [] => none
  | p :: ps, c :: cs => if c = p then litEx ps cs else none

/-- Decode one string escape character. -/
def jescape (e : Char) : Option Char :=
  if e = '"' then some '"'
  else if e = '\\' then some '\\'
  else if e = '/' then some '/'
  else if e = 'n' then some '\n'
  else if e = 't' then some '\t'
  else if e = 'r' then some '\r'
  else if e = 'b' then some (Char.ofNat 8)
  else if e = 'f' then some (Char.ofNat 12)
  else none

def hexVal (c : Char) : Option Nat :=
  if c.isDigit then some (dval c)
  else if 'a' ≤ c ∧ c ≤ 'f' then some (c.toNat - 87)
  else if 'A' ≤ c ∧ c ≤ 'F' then some (c.toNat - 55)
  else none

/-- Body of a JSON string after the opening quote. -/
def parseStr : Nat → List Char → String → Option (String × List Char)
  | 0, _, _ => none
  | _ + 1, [], _ => none
  | fuel + 1, c :: cs, acc =>
    if c = '"' then some (acc, cs)
    else if c = '\\' then
      match cs with
      | 'u' :: h1 :: h2 :: h3 :: h4 :: cs2 =>
        match hexVal h1, hexVal h2, hexVal h3, hexVal h4 with
        | some a, some b, some c', some d =>
          let n := ((a * 16 + b) * 16 + c') * 16 + d
          if 0xd800 ≤ n ∧ n ≤ 0xdfff then none
          else parseStr fuel cs2 (acc.push (Char.ofNat n))
        | _, _, _, _ => none
      | e :: cs2 =>
        match jescape e with
        | some d => parseStr fuel cs2 (acc.push d)
        | none => none
      | [] => none
    else if c.toNat < 32 then none
    else parseStr fuel cs (acc.push c)

/-- Digits of an integer literal (leading-zero form rejected as in JSON). -/
def parseIntLit (cs : List Char) : Option (Int × List Char) :=
  match cs with
  | '-' :: rest =>
    match parseIntLit rest with
    | some (n, cs2) => some (-n, cs2)
    | none => none
  | c :: rest =>
    if c.isDigit then
      if c = '0' then
        match rest with
        | d :: _ => if d.isDigit then none else some (0, rest)
        | [] => some (0, [])
      else
        match digitRun (c :: rest) 0 with
        | some (n, cs2) => some ((n : Int), cs2)
        | none => none
    else none
  | [] => none

mutual

/-- One JSON value (leading whitespace allowed). -/
def parseVal : Nat → List Char → Option (JVal × List Char)
  | 0, _ => none
  | fuel + 1, cs =>
    match jskip cs with
    | [] => none
    | c :: rest =>
      if c = 'n' then (litEx "ull".toList rest).map (fun r => (JVal.jnull, r))
      else if c = 't' then (litEx "rue".toList rest).map (fun r => (JVal.jbool true, r))
      else if c = 'f' then (litEx "alse".toList rest).map (fun r => (JVal.jbool false, r))
      else if c = '"' then
        match parseStr fuel rest "" with
        | some (s, r) => some (JVal.jstr s, r)
        | none => none
      else if c = '[' then
        match jskip rest with
        | ']' :: r2 => some (JVal.jarr [], r2)
        | _ =>
          match parseElems fuel rest with
          | some (vs, r2) => some (JVal.jarr vs, r2)
          | none => none
      else if c = '{' then
        match jskip rest with
        | '}' :: r2 => some (JVal.jobj [], r2)
        | _ =>
          match parseMembers fuel rest with
          | some (kvs, r2) => some (JVal.jobj kvs, r2)
          | none => none
      else
        match parseIntLit (c :: rest) with
        | some (n, r2) =>
          match r2 with
          | d :: _ => if d = '.' ∨ d = 'e' ∨ d = 'E' then none else some (JVal.jnum n, r2)
          | [] => some (JVal.jnum n, [])
        | none => none

/-- Comma-separated array elements up to the closing bracket. -/
def parseElems : Nat → List Char → Option (List JVal × List Char)
  | 0, _ => none
  | fuel + 1, cs =>
    match parseVal fuel cs with
    | none => none
    | some (v, rest) =>
      match jskip rest with
      | ',' :: rest2 =>
        match parseElems fuel rest2 with
        | some (vs, rest3) => some (v :: vs, rest3)
        | none => none
      | ']' :: rest2 => some ([v], rest2)
      | _ => none

/-- Comma-separated object members up to the closing brace. -/
def parseMembers : Nat → List Char → Option (List (String × JVal) × List Char)
  | 0, _ => none
  | fuel + 1, cs =>
    match jskip cs with
    | '"' :: rest =>
      match parseStr fuel rest "" with
      | some (k, rest2) =>
        match jskip rest2 with
        | ':' :: rest3 =>
          match parseVal fuel rest3 with
          | none => none
          | some (v, rest4) =>
            match jskip rest4 with
            | ',' :: rest5 =>
              match parseMembers fuel rest5 with
              | some (kvs, rest6) => some ((k, v) :: kvs, rest6)
              | none => none
            | '}' :: rest5 => some ([(k, v)], rest5)
            | _ => none
        | _ => none
      | none => none
    | _ => none

end

/-- `json.loads(text)`, `none` on failure (trailing garbage included). -/
def jsonLoads (s : String) : Option JVal :=
  match parseVal (4 * (s.length + 1)) s.toList with
  | some (v, rest) => if jskip rest = [] then some v else none
  | none => none

/-! ### Fence stripping and response normalization -/

/-- Python `\w` (ASCII range). -/
def isWordChar (c : Char) : Bool := c.isAlphanum || c = '_'

/-- Lines 268-270 / 195-197: strip a leading ```` ```lang ```` fence marker and
a trailing ```` ``` ```` marker, when the text starts with a fence. -/
def stripFences (text : String) : String :=
  let tl := text.toList
  if "```".toList.isPrefixOf tl then
    let t2 := (tl.drop 3).dropWhile isWordChar
    let t3 := match t2 with
      | '\n' :: r => r
      | _ => t2
    let r3 := t3.reverse
    let r4 :=
      if "```".toList.isPrefixOf r3 then
        let u := r3.drop 3
        match u with
        | '\n' :: u2 => u2
        | _ => u
      else r3
    String.mk r4.reverse
  else text

/-- `response.content.strip()` followed by fence stripping. -/
def respStrip (text : String) : String := stripFences (String.mk (trimL text.toList))

/-- `item.get(k, dflt)` on an object built by `json.loads` (duplicate keys:
last occurrence wins when the dict is built). -/
def objGet (kvs : List (String × JVal)) (k : String) (dflt : JVal) : JVal :=
  match (kvs.filter (fun kv => kv.1 = k)).getLast? with
  | some kv => kv.2
  | none => dflt

def allowedLevels : List String := ["HIGH", "MEDIUM", "LOW"]

/-- A normalized risk prediction (predictive_risk.run lines 288-295).
Fields other than the enumerated `risk_level` are passed through untyped. -/
structure RiskPrediction where
  service : JVal
  risk_level : String
  prediction : JVal
  evidence : JVal
  preventive_action : JVal
  time_horizon : JVal

/-- Normalize one parsed object of the risk response; `none` models the
`AttributeError` of `.upper()` on a non-string `risk_level` value. -/
def normRiskItem (kvs : List (String × JVal)) : Option RiskPrediction :=
  match objGet kvs "risk_level" (.jstr "MEDIUM") with
  | .jstr r0 =>
    let r1 := strUpper r0
    let r := if allowedLevels.contains r1 then r1 else "MEDIUM"
    some ⟨objGet kvs "service" (.jstr "unknown"), r, objGet kvs "prediction" (.jstr ""),
      objGet kvs "evidence" (.jarr []), objGet kvs "preventive_action" (.jstr ""),
      objGet kvs "time_horizon" (.jstr "unknown")⟩
  | _ => none

structure ChainEvent where
  service : JVal
  event : JVal
  timestamp : JVal
  line_number : JVal

structure CausalChain where
  chain : List ChainEvent
  root_cause : JVal
  blast_radius : JVal
  affected_services : JVal
  confidence : String
  summary : JVal

/-- Normalize one element of `item.get("chain", [])`; `none` models the
`AttributeError` of `evt.get` on a non-dict element. -/
def normChainEvent : JVal → Option ChainEvent
  | .jobj e => some ⟨objGet e "service" (.jstr "unknown"), objGet e "event" (.jstr ""),
      objGet e "timestamp" (.jstr ""), objGet e "line_number" (.jnum 0)⟩
  | _ => none

/-- `len(x)` on a JSON value; `none` models `TypeError` on unsized values. -/
def pyLenJ : JVal → Option Nat
  | .jarr l => some l.length
  | .jstr s => some s.length
  | .jobj l => some l.length
  | _ => none

/-- `for evt in x`: a list yields its items; an empty dict or empty string
yields nothing; any other value either yields non-dict items or is not
iterable, so the loop body's `evt.get` raises before any event is built. -/
def iterEvents : JVal → Option (List JVal)
  | .jarr l => some l
  | .jobj [] => some []
  | .jstr "" => some []
  | _ => none

/-- Normalize one parsed object of the causal-chain response (root_cause.run
lines 211-232); `none` models an escaping exception. -/
def normChainItem (kvs : List (String × JVal)) : Option CausalChain :=
  match objGet kvs "confidence" (.jstr "MEDIUM") with
  | .jstr c0 =>
    let c1 := strUpper c0
    let c := if allowedLevels.contains c1 then c1 else "MEDIUM"
    match iterEvents (objGet kvs "chain" (.jarr [])) with
    | some evts =>
      match evts.mapM normChainEvent with
      | some chainEvents =>
        let affected := objGet kvs "affected_services" (.jarr [])
        -- `len(affected)` is evaluated eagerly as the `.get` default even
        -- when a "blast_radius" key is present
        match pyLenJ affected with
        | some n =>
          some ⟨chainEvents, objGet kvs "root_cause" (.jstr ""),
            objGet kvs "blast_radius" (.jnum (n : Int)), affected, c,
            objGet kvs "summary" (.jstr "")⟩
        | none => none
      | none => none
    | none => none
  | _ => none

/-- Outcome of the post-collaborator tail of predictive_risk.run: a normal
return (result list plus optional recoverable error message), or an
escaping exception. -/
inductive NormResult where
  | ok (preds : List RiskPrediction) (error : Option String)
  | crash

/-- predictive_risk.run lines 267-297: fence stripping, `json.loads`, and
per-item normalization.  Iterating a parsed non-array: an empty dict or
empty string iterates nothing; any other non-array value raises. -/
def riskStage (text0 : String) : NormResult :=
  let text := respStrip text0
  match jsonLoads text with
  | none => .ok [] (some ("Predictive risk agent returned invalid JSON: " ++ pyTake text 200))
  | some v =>
    match v with
    | .jarr items =>
      match items.mapM (fun it =>
        match it with
        | .jobj kvs => normRiskItem kvs
        | _ => none) with
      | some preds => .ok preds none
      | none => .crash
    | .jobj [] => .ok [] none
    | .jstr "" => .ok [] none
    | _ => .crash

inductive ChainNormResult where
  | ok (chains : List CausalChain) (error : Option String)
  | crash

/-- root_cause.run lines 194-234: the same normalization tail for causal
chains. -/
def chainStage (text0 : String) : ChainNormResult :=
  let text := respStrip text0
  match jsonLoads text with
  | none => .ok [] (some ("Root cause agent returned invalid JSON: " ++ pyTake text 200))
  | some v =>
    match v with
    | .jarr items =>
      match items.mapM (fun it =>
        match it with
        | .jobj kvs => normChainItem kvs
        | _ => none) with
      | some chains => .ok chains none
      | none => .crash
    | .jobj [] => .ok [] none
    | .jstr "" => .ok [] none
    | _ => .crash

/-! ### Concrete instances used in the theorems below -/

/-- A fully populated record of the "api" service. -/
def c1e (ts : String) (n : Int) : LogEntry :=
  ⟨some ts, some "api", some "ERROR", some "msg", some n⟩

/-- Five records whose sorted inter-arrival gaps are `[10, 20, 15, 30]`:
1 strictly-decreasing comparison among 3. -/
def c1Entries : List LogEntry :=
  [c1e "2024-01-01 00:00:00" 1, c1e "2024-01-01 00:00:10" 2, c1e "2024-01-01 00:00:30" 3,
   c1e "2024-01-01 00:00:45" 4, c1e "2024-01-01 00:01:15" 5]

/-- Four records whose sorted inter-arrival gaps are `[100, 60, 20]`:
2 strictly-decreasing comparisons among 2. -/
def c1FireEntries : List LogEntry :=
  [c1e "2024-01-01 00:00:00" 1, c1e "2024-01-01 00:01:40" 2, c1e "2024-01-01 00:02:40" 3,
   c1e "2024-01-01 00:03:00" 4]

def c2r (ts : String) (n : Int) : LogEntry :=
  ⟨some ts, some "web", some "ERROR", some "m", some n⟩

/-- t0 -/
def c2A : LogEntry := c2r "2024-03-05 12:00:00" 1

/-- t0 + 50 s -/
def c2B : LogEntry := c2r "2024-03-05 12:00:50" 2

/-- t0 + 130 s -/
def c2C : LogEntry := c2r "2024-03-05 12:02:10" 3

/-- t0 + 110 s: within 60 s of its predecessor but not of the group start. -/
def c2D : LogEntry := c2r "2024-03-05 12:01:50" 3

/-- t0 + 60 s: exactly on the window boundary. -/
def c10B : LogEntry := c2r "2024-03-05 12:01:00" 2

/-- t0 + 61 s: one second past the window boundary. -/
def c10C : LogEntry := c2r "2024-03-05 12:01:01" 2

def c6disk : LogEntry := ⟨some "", some "db", some "ERROR", some "disk at 81%", some 1⟩

def c6pool76 : LogEntry :=
  ⟨some "", some "db", some "ERROR", some "connection pool 76/100 connections", some 2⟩

def c6pool75 : LogEntry :=
  ⟨some "", some "db", some "ERROR", some "connection pool 75/100 connections", some 3⟩

/-- An actionable record whose service field is present but empty. -/
def c7e : LogEntry := ⟨some "", some "", some "ERROR", some "x", some 5⟩

/-- Two actionable records of different services that mention each other's
service name, with identical `line_number` and unparsable timestamps. -/
def c5A : LogEntry := ⟨some "", some "a", some "ERROR", some "calling b failed", some 7⟩

def c5B : LogEntry := ⟨some "", some "b", some "ERROR", some "error from a", some 7⟩

/-- Two time-parsable actionable records 10 s apart with distinct line
numbers (a plain time-group candidate). -/
def c5T1 : LogEntry := ⟨some "2024-03-05 12:00:00", some "a", some "ERROR", some "plain", some 1⟩

def c5T2 : LogEntry := ⟨some "2024-03-05 12:00:10", some "a", some "ERROR", some "plain", some 2⟩

/-- The line-number list of a candidate, in member order. -/
def keyListOf (c : List LogEntry) : List Int := c.map lineNum

/-- Members of the witness batch for C4. -/
def c4w (n : Int) : LogEntry := ⟨some "", some "svc", some "ERROR", some "w", some n⟩

/-! ## Theorems -/

/-! ### C1: frequency-acceleration firing condition -/

theorem diffs_length : ∀ l : List Nat, (diffs l).length = l.length - 1
  | [] => rfl
  | [_] => rfl
  | a :: b :: r => by
    have ih := diffs_length (b :: r)
    simp only [diffs, List.length_cons] at ih ⊢
    omega

/-- C1 (amended): for every service with at least 3 time-parsable actionable
records, the detector fires exactly when the count of strictly-decreasing
gap-to-gap comparisons is at least half the number of *gaps* (integer floor
division, i.e. `(comparisons + 1) / 2`) and at least 1. -/
theorem C1_freq_threshold (entries : List LogEntry)
    (h : 3 ≤ (timedOf entries).length) :
    detectFreqService entries = true ↔
      (gapsOf entries).length / 2 ≤ decCount (gapsOf entries) ∧
        1 ≤ decCount (gapsOf entries) := by
  have hlt : ¬ (timedOf entries).length < 3 := by omega
  have hg : (gapsOf entries).length = (timedOf entries).length - 1 := by
    unfold gapsOf
    rw [diffs_length, List.length_map]
  have h2 : 2 ≤ (gapsOf entries).length := by omega
  unfold detectFreqService
  simp only [hlt, if_false, gapsOf] at h2 ⊢
  rw [if_pos h2]
  simp [Bool.and_eq_true, decide_eq_true_eq]

/-- Witness for C1_freq_threshold at `c1FireEntries` (gaps `[100, 60, 20]`). -/
theorem C1_freq_threshold_witness :
    3 ≤ (timedOf c1FireEntries).length ∧
      (detectFreqService c1FireEntries = true ↔
        (gapsOf c1FireEntries).length / 2 ≤ decCount (gapsOf c1FireEntries) ∧
          1 ≤ decCount (gapsOf c1FireEntries)) :=
  ⟨by decide, C1_freq_threshold c1FireEntries (by decide)⟩

/-- C1 counterexample: with sorted gaps `[10, 20, 15, 30]` there are 3
gap-to-gap comparisons of which exactly 1 is strictly decreasing, so the
claimed condition (`1 ≥ 3 / 2` and `1 ≥ 1`) holds, yet the detector emits
no signal, because the code's threshold is `len(gaps) // 2 = 2`, half the
number of gaps rather than half the number of comparisons. -/
theorem C1_counterexample :
    gapsOf c1Entries = [10, 20, 15, 30] ∧
    decCount (gapsOf c1Entries) = 1 ∧
    ((gapsOf c1Entries).length - 1) / 2 ≤ decCount (gapsOf c1Entries) ∧
    1 ≤ decCount (gapsOf c1Entries) ∧
    3 ≤ (timedOf c1Entries).length ∧
    detectFrequencyAcceleration [("api", c1Entries)] = [] :=
  ⟨by decide, by decide, by decide, by decide, by decide, by decide⟩

/-! ### C2: greedy fixed-anchor time grouping -/

/-- C2: the grouper's single greedy pass appends a record exactly when its
instant is within `window` of the group's *start* (first conjunct, the loop
step).  With window 60 and records at t0, t0+50s, t0+130s it yields exactly
the group `[t0, t0+50s]`, dropping the one-element tail group; with records
at t0, t0+50s, t0+110s the third record is still excluded even though it is
within 60 s of its predecessor — the window is anchored, not sliding. -/
theorem C2_grouper :
    (∀ (w start dt : Nat) (e : LogEntry) (rest : List (Nat × LogEntry)) (cur : List LogEntry),
      groupLoop w ((dt, e) :: rest) cur start =
        if (dt : Int) - (start : Int) ≤ (w : Int) then groupLoop w rest (cur ++ [e]) start
        else (if 2 ≤ cur.length then [cur] else []) ++ groupLoop w rest [e] dt) ∧
    buildTimeGroups [c2A, c2B, c2C] 60 = [[c2A, c2B]] ∧
    buildTimeGroups [c2A, c2B, c2D] 60 = [[c2A, c2B]] :=
  ⟨fun _ _ _ _ _ _ => rfl, by decide, by decide⟩

/-! ### C10: the window boundary is inclusive -/

/-- C10: a record exactly `window` seconds after the group start is appended
to the group; a record strictly later closes the group (kept only at size
at least 2) and anchors a new one.  Concretely with the default window 60:
records at t0 and t0+60s form one group, records at t0 and t0+61s produce
no group at all. -/
theorem C10_window_inclusive :
    (∀ (w start : Nat) (e : LogEntry) (rest : List (Nat × LogEntry)) (cur : List LogEntry),
      groupLoop w ((start + w, e) :: rest) cur start = groupLoop w rest (cur ++ [e]) start) ∧
    (∀ (w start : Nat) (e : LogEntry) (rest : List (Nat × LogEntry)) (cur : List LogEntry),
      groupLoop w ((start + w + 1, e) :: rest) cur start =
        (if 2 ≤ cur.length then [cur] else []) ++ groupLoop w rest [e] (start + w + 1)) ∧
    buildTimeGroups [c2A, c10B] TIME_WINDOW = [[c2A, c10B]] ∧
    buildTimeGroups [c2A, c10C] TIME_WINDOW = [] := by
  refine ⟨?_, ?_, by decide, by decide⟩
  · intro w start e rest cur
    have hc : ((start + w : Nat) : Int) - (start : Int) ≤ (w : Int) := by push_cast; omega
    rw [groupLoop, if_pos hc]
  · intro w start e rest cur
    have hc : ¬ (((start + w + 1 : Nat) : Int) - (start : Int) ≤ (w : Int)) := by
      push_cast; omega
    rw [groupLoop, if_neg hc]

/-! ### C6: KnownPatternDetector thresholds (disk regex code bug) -/

theorem diskTail_le_nine : ∀ cs : List Char, ∀ v, diskTail cs = some v → v ≤ 9
  | [], v => by simp [diskTail]
  | [c], v => by simp [diskTail]
  | c1 :: c2 :: rest, v => by
    intro h
    rw [diskTail] at h
    by_cases h1 : c1 = '\n'
    · simp [h1] at h
    · rw [if_neg h1] at h
      cases hrec : diskTail (c2 :: rest) with
      | some w =>
        rw [hrec] at h
        cases h
        exact diskTail_le_nine (c2 :: rest) _ hrec
      | none =>
        rw [hrec] at h
        by_cases hd : c1.isDigit && c2 = '%'
        · rw [if_pos hd] at h
          cases h
          have : c1.isDigit := by
            rcases Bool.and_eq_true .. ▸ hd with ⟨hdig, _⟩
            exact hdig
          have h48 : 48 ≤ c1.toNat ∧ c1.toNat ≤ 57 := by
            simp only [Char.isDigit, decide_eq_true_eq, Bool.and_eq_true] at this
            obtain ⟨ha, hb⟩ := this
            constructor
            · exact ha
            · exact hb
          unfold dval
          omega
        · rw [if_neg hd] at h
          exact absurd h (by simp)

theorem diskSearch_some_le_nine : ∀ cs : List Char, ∀ v, diskSearch cs = some v → v ≤ 9
  | [], v => by simp [diskSearch]
  | c :: cs, v => by
    intro h
    rw [diskSearch] at h
    split at h
    next rest heq =>
      split at h
      next w htail =>
        cases h
        exact diskTail_le_nine rest _ htail
      next htail => exact diskSearch_some_le_nine cs v h
    next heq => exact diskSearch_some_le_nine cs v h

/-- The first capture group of `disk.*(\d+)%` is at most one digit: the
greedy `.*` always leaves a single digit for `(\d+)`. -/
theorem diskSearch_le_nine (cs : List Char) : (diskSearch cs).getD 0 ≤ 9 := by
  cases h : diskSearch cs with
  | some v => simpa using diskSearch_some_le_nine cs v h
  | none => simp

/-- C6 (code bug): the pool thresholds behave as specified (76/100 fires,
75/100 does not), but the disk_critical check can never fire: the greedy
`.*` in `disk.*(\d+)%` leaves only the final digit before the percent sign
in the capture group, so the captured value is at most 9 and the comparison
`pct > 80` is always false.  On `"disk at 81%"` the capture is 1 and no
signal is emitted, although the spec requires this record to fire. -/
theorem C6_disk_bug :
    diskSearch "disk at 81%".toList = some 1 ∧
    detectKnownPatterns [("db", [c6disk])] = [] ∧
    (∀ cs : List Char, (diskSearch cs).getD 0 ≤ 9) ∧
    detectKnownPatterns [("db", [c6pool76])] = [⟨"db", "known_pattern", "pool_exhaustion"⟩] ∧
    detectKnownPatterns [("db", [c6pool75])] = [] :=
  ⟨by decide, by decide, diskSearch_le_nine, by decide, by decide⟩

/-! ### C8: collaborator-response parse failures -/

/-- C8 (amended): whenever the stripped response text is not parsable JSON
at all (`json.loads` raises `JSONDecodeError`), both normalization stages
return an empty result list and a non-empty error message carrying the
first 200 characters of the stripped text.  (Text that parses as JSON but
is not an array does not take this path — see the counterexample.) -/
theorem C8_parse_failure (text : String)
    (h : jsonLoads (respStrip text) = none) :
    riskStage text =
      .ok [] (some ("Predictive risk agent returned invalid JSON: " ++
        pyTake (respStrip text) 200)) ∧
    chainStage text =
      .ok [] (some ("Root cause agent returned invalid JSON: " ++
        pyTake (respStrip text) 200)) ∧
    ("Predictive risk agent returned invalid JSON: " ++ pyTake (respStrip text) 200) ≠ "" := by
  refine ⟨?_, ?_, ?_⟩
  · simp only [riskStage, h]
  · simp only [chainStage, h]
  · intro hemp
    have hlen := congrArg String.length hemp
    rw [String.length_append] at hlen
    have h1 : ("Predictive risk agent returned invalid JSON: " : String).length = 45 := by
      decide
    have h2 : ("" : String).length = 0 := by decide
    rw [h1, h2] at hlen
    omega

/-- Witness for C8_parse_failure at the unparsable text `"not json"`. -/
theorem C8_parse_failure_witness :
    jsonLoads (respStrip "not json") = none ∧
    riskStage "not json" =
      .ok [] (some ("Predictive risk agent returned invalid JSON: " ++
        pyTake (respStrip "not json") 200)) ∧
    chainStage "not json" =
      .ok [] (some ("Root cause agent returned invalid JSON: " ++
        pyTake (respStrip "not json") 200)) :=
  ⟨rfl, (C8_parse_failure "not json" rfl).1, (C8_parse_failure "not json" rfl).2.1⟩

/-- C8 counterexample: the text `"{}"` fails to parse as a JSON *array*
(it parses as an empty JSON object), yet the stage returns an empty result
list with *no* error message, because the source only catches
`json.JSONDecodeError` and then iterates the parsed value. -/
theorem C8_counterexample :
    jsonLoads (respStrip "\x7b\x7d") = some (JVal.jobj []) ∧
    riskStage "\x7b\x7d" = NormResult.ok [] none :=
  ⟨rfl, rfl⟩

/-! ### C9: field-by-field normalization of parsed objects -/

/-- C9 (amended): normalization never raises on missing keys — the empty
object yields fully defaulted records; the enumerated fields `risk_level`
and `confidence` are upper-cased with fallback `MEDIUM`; and `blast_radius`
defaults not to 0 but to `len(affected_services)` (0 only when
`affected_services` is itself absent or empty). -/
theorem C9_normalization :
    normRiskItem [] =
      some ⟨.jstr "unknown", "MEDIUM", .jstr "", .jarr [], .jstr "", .jstr "unknown"⟩ ∧
    normChainItem [] = some ⟨[], .jstr "", .jnum 0, .jarr [], "MEDIUM", .jstr ""⟩ ∧
    (∀ s, (normRiskItem [("risk_level", .jstr s)]).map RiskPrediction.risk_level =
      some (if allowedLevels.contains (strUpper s) then strUpper s else "MEDIUM")) ∧
    (∀ s, (normChainItem [("confidence", .jstr s)]).map CausalChain.confidence =
      some (if allowedLevels.contains (strUpper s) then strUpper s else "MEDIUM")) ∧
    (∀ l, (normChainItem [("affected_services", .jarr l)]).map CausalChain.blast_radius =
      some (.jnum l.length)) := by
  refine ⟨rfl, rfl, fun s => rfl, fun s => rfl, fun l => rfl⟩

/-- C9 counterexample: an object with `affected_services` of length 2 and
no `blast_radius` key is normalized with `blast_radius = 2`, not the
claimed default 0. -/
theorem C9_counterexample :
    (normChainItem [("affected_services", JVal.jarr [JVal.jstr "a", JVal.jstr "b"])]).map
        CausalChain.blast_radius = some (JVal.jnum 2) ∧
    (normChainItem [("affected_services", JVal.jarr [JVal.jstr "a", JVal.jstr "b"])]).map
        CausalChain.blast_radius ≠ some (JVal.jnum 0) := by
  refine ⟨rfl, ?_⟩
  intro h
  have h2 : (some (JVal.jnum 2) : Option JVal) = some (JVal.jnum 0) := by
    calc (some (JVal.jnum 2) : Option JVal)
        = (normChainItem [("affected_services", JVal.jarr [JVal.jstr "a", JVal.jstr "b"])]).map
            CausalChain.blast_radius := rfl
      _ = some (JVal.jnum 0) := h
  have h3 := Option.some.inj h2
  injection h3 with h4
  exact absurd h4 (by decide)

/-! ### C7: actionable-level filter and service partition -/

theorem lookupA_addToGroup (k q : String) (e : LogEntry) :
    ∀ m : List (String × List LogEntry),
      lookupA k (addToGroup q e m) =
        if q = k then some ((lookupA k m).getD [] ++ [e]) else lookupA k m
  | [] => by
    by_cases h : q = k <;> simp [addToGroup, lookupA, h]
  | (k0, g) :: rest => by
    by_cases h0 : k0 = q
    · subst h0
      by_cases hk : k0 = k <;> simp [addToGroup, lookupA, hk]
    · have ih := lookupA_addToGroup k q e rest
      by_cases hk : k0 = k
      · subst hk
        have hq : ¬ q = k0 := fun hh => h0 hh.symm
        simp [addToGroup, lookupA, h0, hq]
      · simp [addToGroup, lookupA, h0, hk, ih]

theorem mem_ebsStep (m : List (String × List LogEntry)) (a e : LogEntry) (k : String) :
    (∃ g, lookupA k (ebsStep m a) = some g ∧ e ∈ g) ↔
      ((∃ g, lookupA k m = some g ∧ e ∈ g) ∨
        (isActionable a = true ∧ svcOfRisk a = k ∧ e = a)) := by
  unfold ebsStep
  by_cases ha : isActionable a
  · rw [if_pos ha]
    constructor
    · rintro ⟨g, hg, hmem⟩
      rw [lookupA_addToGroup] at hg
      by_cases hk : svcOfRisk a = k
      · rw [if_pos hk] at hg
        obtain rfl : g = (lookupA k m).getD [] ++ [a] := (Option.some.inj hg).symm
        rcases List.mem_append.mp hmem with hmem | hmem
        · cases hl : lookupA k m with
          | some g0 => exact Or.inl ⟨g0, rfl, by rw [hl] at hmem; simpa using hmem⟩
          | none => rw [hl] at hmem; simp at hmem
        · exact Or.inr ⟨ha, hk, by simpa using hmem⟩
      · rw [if_neg hk] at hg
        exact Or.inl ⟨g, hg, hmem⟩
    · rintro (⟨g, hg, hmem⟩ | ⟨_, hk, rfl⟩)
      · rw [lookupA_addToGroup]
        by_cases hk : svcOfRisk a = k
        · rw [if_pos hk]
          exact ⟨_, rfl, List.mem_append.mpr (Or.inl (by rw [hg]; exact hmem))⟩
        · rw [if_neg hk]
          exact ⟨g, hg, hmem⟩
      · rw [lookupA_addToGroup, if_pos hk]
        exact ⟨_, rfl, List.mem_append.mpr (Or.inr (by simp))⟩
  · rw [if_neg ha]
    constructor
    · exact fun h => Or.inl h
    · rintro (h | ⟨ha2, _, _⟩)
      · exact h
      · exact absurd ha2 ha

theorem mem_ebs_foldl (k : String) (e : LogEntry) :
    ∀ (entries : List LogEntry) (m0 : List (String × List LogEntry)),
      (∃ g, lookupA k (entries.foldl ebsStep m0) = some g ∧ e ∈ g) ↔
        ((∃ g, lookupA k m0 = some g ∧ e ∈ g) ∨
          (e ∈ entries ∧ isActionable e = true ∧ svcOfRisk e = k))
  | [], m0 => by simp
  | a :: rest, m0 => by
    rw [List.foldl_cons, mem_ebs_foldl k e rest (ebsStep m0 a), mem_ebsStep]
    constructor
    · rintro ((h | ⟨ha, hk, rfl⟩) | ⟨hmem, ha, hk⟩)
      · exact Or.inl h
      · exact Or.inr ⟨List.mem_cons_self _ _, ha, hk⟩
      · exact Or.inr ⟨List.mem_cons_of_mem a hmem, ha, hk⟩
    · rintro (h | ⟨hmem, ha, hk⟩)
      · exact Or.inl (Or.inl h)
      · rcases List.mem_cons.mp hmem with rfl | hmem
        · exact Or.inl (Or.inr ⟨ha, hk, rfl⟩)
        · exact Or.inr ⟨hmem, ha, hk⟩

/-- C7 (amended): the partition keeps exactly the records whose level is one
of CRITICAL, ERROR, WARN, WARNING, grouped under `e.get("service",
"unknown")`: a record appears in the group of key `k` exactly when it is an
actionable input record whose service *defaulted-on-absence* key is `k`.
Only an absent service field is normalized to "unknown"; a present-but-empty
service `""` is grouped under the key `""` itself (see the counterexample). -/
theorem C7_partition (entries : List LogEntry) (k : String) (e : LogEntry) :
    (∃ g, lookupA k (entriesByService entries) = some g ∧ e ∈ g) ↔
      (e ∈ entries ∧ isActionable e = true ∧ svcOfRisk e = k) := by
  unfold entriesByService
  rw [mem_ebs_foldl]
  simp [lookupA]

/-- C7 counterexample: a record whose service field is present but empty is
grouped under the key `""`, not under the sentinel `"unknown"`: the source
normalizes only an *absent* service (`e.get("service", "unknown")`). -/
theorem C7_counterexample :
    entriesByService [c7e] = [("", [c7e])] ∧
    lookupA "unknown" (entriesByService [c7e]) = none :=
  ⟨by decide, by decide⟩

/-! ### C3: the three merge tiers are mutually exclusive -/

theorem updAssoc_kv :
    ∀ (m : List (Int × LogEntry)), (∀ p ∈ m, lineNum p.2 = p.1) →
      ∀ (e : LogEntry) (p : Int × LogEntry), p ∈ updAssoc (lineNum e) e m → lineNum p.2 = p.1
  | [], _, e, p, hp => by
    simp only [updAssoc, List.mem_singleton] at hp
    rw [hp]
  | (k0, v0) :: rest, hm, e, p, hp => by
    rw [updAssoc] at hp
    by_cases h : k0 = lineNum e
    · rw [if_pos h] at hp
      rcases List.mem_cons.mp hp with rfl | hp
      · rfl
      · exact hm _ (List.mem_cons_of_mem _ hp)
    · rw [if_neg h] at hp
      rcases List.mem_cons.mp hp with rfl | hp
      · exact hm _ (List.mem_cons_self _ _)
      · exact updAssoc_kv rest (fun q hq => hm q (List.mem_cons_of_mem _ hq)) e p hp

theorem foldl_upd_kv :
    ∀ (l : List LogEntry) (m : List (Int × LogEntry)), (∀ p ∈ m, lineNum p.2 = p.1) →
      ∀ p ∈ l.foldl (fun m e => updAssoc (lineNum e) e m) m, lineNum p.2 = p.1
  | [], _, hm => hm
  | e :: l, m, hm => by
    rw [List.foldl_cons]
    exact foldl_upd_kv l _ (fun p hp => updAssoc_kv m hm e p hp)

/-- In the merged dict every stored value's line number is its key. -/
theorem mergedAssoc_kv (cluster tg : List LogEntry) :
    ∀ p ∈ mergedAssoc cluster tg, lineNum p.2 = p.1 :=
  foldl_upd_kv (cluster ++ tg) [] (by simp)

theorem map_fst_eq_map_lineNum :
    ∀ (m : List (Int × LogEntry)), (∀ p ∈ m, lineNum p.2 = p.1) →
      m.map Prod.fst = (m.map Prod.snd).map lineNum
  | [], _ => rfl
  | p :: rest, h => by
    simp only [List.map_cons]
    rw [map_fst_eq_map_lineNum rest (fun q hq => h q (List.mem_cons_of_mem _ hq))]
    rw [h p (List.mem_cons_self _ _)]

/-- `set(merged.keys())` is the member-line-number list of
`list(merged.values())`. -/
theorem mergedKeys_eq (cluster tg : List LogEntry) :
    mergedKeys cluster tg = keyListOf (mergeTwo cluster tg) :=
  map_fst_eq_map_lineNum _ (mergedAssoc_kv cluster tg)

theorem tier1Inner_lockstep (cluster : List LogEntry) :
    ∀ (tgs : List (List LogEntry)) (acc : MergeAcc),
      acc.2 = acc.1.map keyListOf →
      (tier1Inner cluster tgs acc).2 = (tier1Inner cluster tgs acc).1.map keyListOf
  | [], _, h => h
  | tg :: tgs, acc, h => by
    rw [tier1Inner]
    by_cases hov : 2 ≤ (overlapOf cluster tg).length
    · rw [if_pos hov]
      by_cases hseen : acc.2.any (sameSet (mergedKeys cluster tg))
      · rw [if_pos hseen]
        exact tier1Inner_lockstep cluster tgs acc h
      · rw [if_neg hseen]
        refine tier1Inner_lockstep cluster tgs _ ?_
        simp only [List.map_append, List.map_cons, List.map_nil]
        rw [h, mergedKeys_eq]
    · rw [if_neg hov]
      exact tier1Inner_lockstep cluster tgs acc h

theorem tier1Outer_lockstep :
    ∀ (crs tgs : List (List LogEntry)) (acc : MergeAcc),
      acc.2 = acc.1.map keyListOf →
      (tier1Outer tgs crs acc).2 = (tier1Outer tgs crs acc).1.map keyListOf
  | [], _, _, h => h
  | cluster :: crs, tgs, acc, h =>
    tier1Outer_lockstep crs tgs _ (tier1Inner_lockstep cluster tgs acc h)

theorem tier2Go_grows :
    ∀ (crs : List (List LogEntry)) (acc : MergeAcc),
      ∃ d1 d2, tier2Go crs acc = (acc.1 ++ d1, acc.2 ++ d2)
  | [], acc => ⟨[], [], by simp [tier2Go]⟩
  | c :: crs, acc => by
    rw [tier2Go]
    by_cases h : acc.2.any (sameSet (lineSet c))
    · rw [if_pos h]
      exact tier2Go_grows crs acc
    · rw [if_neg h]
      obtain ⟨d1, d2, hd⟩ := tier2Go_grows crs (acc.1 ++ [c], acc.2 ++ [lineSet c])
      exact ⟨[c] ++ d1, [lineSet c] ++ d2, by rw [hd]; simp⟩

/-- Starting from an empty accumulator, tier 2 emits at least its first
cluster. -/
theorem tier2Go_ne_empty (c : List LogEntry) (crs : List (List LogEntry)) :
    (tier2Go (c :: crs) ([], [])).1 ≠ [] := by
  rw [tier2Go]
  simp only [List.any_nil, Bool.false_eq_true, if_false, List.nil_append]
  obtain ⟨d1, d2, hd⟩ := tier2Go_grows crs ([c], [lineSet c])
  rw [hd]
  simp

/-- `_merge_candidates` equals the strict three-tier fallback: the tier-1
output when it is non-empty, otherwise the tier-2 output when it is
non-empty, otherwise the tier-3 output. -/
theorem mergeCandidates_eq (tgs crs : List (List LogEntry)) :
    mergeCandidates tgs crs =
      if tier1Out tgs crs = [] then
        (if tier2Out crs = [] then tier3Out tgs else tier2Out crs)
      else tier1Out tgs crs := by
  by_cases hg : tgs.isEmpty && crs.isEmpty
  · rw [Bool.and_eq_true, List.isEmpty_iff, List.isEmpty_iff] at hg
    obtain ⟨h1, h2⟩ := hg
    subst h1
    subst h2
    simp [mergeCandidates, tier1Out, tier2Out, tier3Out, tier1Outer, tier2Go, tier3Go,
      mergeTiers2, mergeTiers3]
  · unfold mergeCandidates
    rw [if_neg hg]
    by_cases h1 : tier1Out tgs crs = []
    · have h1a : (tier1Outer tgs crs ([], [])).1 = [] := h1
      have h2 : (tier1Outer tgs crs ([], [])).2 = [] := by
        rw [tier1Outer_lockstep crs tgs ([], []) rfl, h1a]
        rfl
      have ha : tier1Outer tgs crs ([], []) = (([], []) : MergeAcc) := by
        rw [Prod.ext_iff]
        exact ⟨h1a, h2⟩
      rw [ha, if_pos h1]
      show (mergeTiers3 tgs (tier2Go crs ([], []))).1 =
        if tier2Out crs = [] then tier3Out tgs else tier2Out crs
      by_cases h2e : tier2Out crs = []
      · have hcrs : crs = [] := by
          cases crs with
          | nil => rfl
          | cons c cs => exact absurd h2e (tier2Go_ne_empty c cs)
        subst hcrs
        rw [if_pos h2e]
        rfl
      · rw [if_neg h2e]
        have hne : (tier2Go crs ([], [])).1.isEmpty = false := by
          cases hh : (tier2Go crs ([], [])).1 with
          | nil => exact absurd hh h2e
          | cons a l => rfl
        rw [mergeTiers3, if_neg (by rw [hne]; exact Bool.false_ne_true)]
        rfl
    · rw [if_neg h1]
      have hne1 : (tier1Outer tgs crs ([], [])).1.isEmpty = false := by
        cases hh : (tier1Outer tgs crs ([], [])).1 with
        | nil => exact absurd hh h1
        | cons a l => rfl
      rw [mergeTiers2, if_neg (by rw [hne1]; exact Bool.false_ne_true)]
      rw [mergeTiers3, if_neg (by rw [hne1]; exact Bool.false_ne_true)]
      rfl

/-- C3: CandidateMerger's three tiers are evaluated in order and are
mutually exclusive: the output is the tier-1 overlap merge when it produced
anything, otherwise all cross-ref clusters (tier 2) when there are any,
otherwise all time groups (tier 3) — so one run's output never mixes
candidates of different tiers. -/
theorem C3_tier_exclusive (tgs crs : List (List LogEntry)) :
    mergeCandidates tgs crs =
      if tier1Out tgs crs = [] then
        (if tier2Out crs = [] then tier3Out tgs else tier2Out crs)
      else tier1Out tgs crs :=
  mergeCandidates_eq tgs crs

/-! ### C4: the tier-1 overlap merge -/

theorem sameSet_refl (a : List Int) : sameSet a a = true := by
  simp [sameSet, List.all_eq_true]

theorem sameSet_comm (a b : List Int) : sameSet a b = sameSet b a := by
  simp [sameSet]
  exact Bool.and_comm _ _

theorem mem_updAssoc_keys (x k : Int) (v : LogEntry) :
    ∀ m : List (Int × LogEntry),
      (x ∈ (updAssoc k v m).map Prod.fst ↔ x ∈ m.map Prod.fst ∨ x = k)
  | [] => by simp [updAssoc]
  | (k0, v0) :: rest => by
    rw [updAssoc]
    by_cases h : k0 = k
    · subst h
      rw [if_pos rfl]
      simp only [List.map_cons, List.mem_cons]
      tauto
    · rw [if_neg h]
      simp only [List.map_cons, List.mem_cons, mem_updAssoc_keys x k v rest]
      tauto

theorem nodup_updAssoc_keys (k : Int) (v : LogEntry) :
    ∀ m : List (Int × LogEntry),
      (m.map Prod.fst).Nodup → ((updAssoc k v m).map Prod.fst).Nodup
  | [] => by simp [updAssoc]
  | (k0, v0) :: rest => by
    intro h
    rw [List.map_cons, List.nodup_cons] at h
    rw [updAssoc]
    by_cases hk : k0 = k
    · subst hk
      simpa [List.nodup_cons] using h
    · rw [if_neg hk]
      rw [List.map_cons, List.nodup_cons]
      refine ⟨?_, nodup_updAssoc_keys k v rest h.2⟩
      rw [mem_updAssoc_keys]
      rintro (hmem | rfl)
      · exact h.1 hmem
      · exact hk rfl

theorem mem_foldl_upd_keys (x : Int) :
    ∀ (l : List LogEntry) (m : List (Int × LogEntry)),
      (x ∈ ((l.foldl (fun m e => updAssoc (lineNum e) e m) m).map Prod.fst) ↔
        x ∈ m.map Prod.fst ∨ x ∈ l.map lineNum)
  | [], m => by simp
  | e :: l, m => by
    rw [List.foldl_cons, mem_foldl_upd_keys x l _, mem_updAssoc_keys]
    simp only [List.map_cons, List.mem_cons]
    tauto

theorem nodup_foldl_upd_keys :
    ∀ (l : List LogEntry) (m : List (Int × LogEntry)),
      (m.map Prod.fst).Nodup →
      ((l.foldl (fun m e => updAssoc (lineNum e) e m) m).map Prod.fst).Nodup
  | [], _, h => h
  | e :: l, m, h =>
    nodup_foldl_upd_keys l _ (nodup_updAssoc_keys (lineNum e) e m h)

/-- The merged dict's key set is the union of the two line-number sets. -/
theorem mem_mergedKeys (x : Int) (cluster tg : List LogEntry) :
    x ∈ mergedKeys cluster tg ↔ x ∈ cluster.map lineNum ∨ x ∈ tg.map lineNum := by
  unfold mergedKeys mergedAssoc
  rw [mem_foldl_upd_keys]
  simp

/-- The merged dict's keys are duplicate-free. -/
theorem mergedKeys_nodup (cluster tg : List LogEntry) : (mergedKeys cluster tg).Nodup :=
  nodup_foldl_upd_keys (cluster ++ tg) [] (by simp)

theorem overlapOf_nodup (cluster tg : List LogEntry) : (overlapOf cluster tg).Nodup :=
  (List.nodup_dedup _).filter _

theorem overlapOf_subset_keys (cluster tg : List LogEntry) :
    overlapOf cluster tg ⊆ mergedKeys cluster tg := by
  intro x hx
  rw [overlapOf, List.mem_filter] at hx
  rw [mem_mergedKeys]
  exact Or.inl (by simpa [lineSet] using hx.1)

/-- A qualifying overlap forces at least two members in the merged
candidate. -/
theorem two_le_mergeTwo (cluster tg : List LogEntry)
    (hov : 2 ≤ (overlapOf cluster tg).length) : 2 ≤ (mergeTwo cluster tg).length := by
  have hsub := List.subperm_of_subset (overlapOf_nodup cluster tg)
    (overlapOf_subset_keys cluster tg)
  have hlen := hsub.length_le
  have h1 : (mergedKeys cluster tg).length = (mergeTwo cluster tg).length := by
    unfold mergedKeys mergeTwo
    simp
  omega

theorem tier1Inner_grows (cluster : List LogEntry) :
    ∀ (tgs : List (List LogEntry)) (acc : MergeAcc),
      ∃ d1 d2, tier1Inner cluster tgs acc = (acc.1 ++ d1, acc.2 ++ d2)
  | [], acc => ⟨[], [], by simp [tier1Inner]⟩
  | tg :: tgs, acc => by
    rw [tier1Inner]
    by_cases hov : 2 ≤ (overlapOf cluster tg).length
    · rw [if_pos hov]
      by_cases hseen : acc.2.any (sameSet (mergedKeys cluster tg))
      · rw [if_pos hseen]
        exact tier1Inner_grows cluster tgs acc
      · rw [if_neg hseen]
        obtain ⟨d1, d2, hd⟩ := tier1Inner_grows cluster tgs
          (acc.1 ++ [mergeTwo cluster tg], acc.2 ++ [mergedKeys cluster tg])
        exact ⟨[mergeTwo cluster tg] ++ d1, [mergedKeys cluster tg] ++ d2, by rw [hd]; simp⟩
    · rw [if_neg hov]
      exact tier1Inner_grows cluster tgs acc

theorem tier1Outer_grows :
    ∀ (crs tgs : List (List LogEntry)) (acc : MergeAcc),
      ∃ d1 d2, tier1Outer tgs crs acc = (acc.1 ++ d1, acc.2 ++ d2)
  | [], _, acc => ⟨[], [], by simp [tier1Outer]⟩
  | cluster :: crs, tgs, acc => by
    rw [tier1Outer]
    obtain ⟨d1, d2, hd⟩ := tier1Inner_grows cluster tgs acc
    obtain ⟨e1, e2, he⟩ := tier1Outer_grows crs tgs (tier1Inner cluster tgs acc)
    refine ⟨d1 ++ e1, d2 ++ e2, ?_⟩
    rw [he, hd]
    simp

theorem tier1Inner_seen_mono (cluster : List LogEntry) (tgs : List (List LogEntry))
    (acc : MergeAcc) (s : List Int) (hs : s ∈ acc.2) :
    s ∈ (tier1Inner cluster tgs acc).2 := by
  obtain ⟨d1, d2, hd⟩ := tier1Inner_grows cluster tgs acc
  rw [hd]
  exact List.mem_append.mpr (Or.inl hs)

theorem tier1Outer_seen_mono (crs tgs : List (List LogEntry))
    (acc : MergeAcc) (s : List Int) (hs : s ∈ acc.2) :
    s ∈ (tier1Outer tgs crs acc).2 := by
  obtain ⟨d1, d2, hd⟩ := tier1Outer_grows crs tgs acc
  rw [hd]
  exact List.mem_append.mpr (Or.inl hs)

theorem tier1Inner_present (cluster : List LogEntry) :
    ∀ (tgs : List (List LogEntry)) (acc : MergeAcc) (tg : List LogEntry),
      tg ∈ tgs → 2 ≤ (overlapOf cluster tg).length →
      ∃ s ∈ (tier1Inner cluster tgs acc).2, sameSet s (mergedKeys cluster tg) = true
  | [], _, tg, htg, _ => absurd htg (List.not_mem_nil tg)
  | tg0 :: tgs, acc, tg, htg, hov => by
    rcases List.mem_cons.mp htg with rfl | htg
    · rw [tier1Inner, if_pos hov]
      by_cases hseen : acc.2.any (sameSet (mergedKeys cluster tg))
      · rw [if_pos hseen]
        obtain ⟨s, hs, hss⟩ := List.any_eq_true.mp hseen
        refine ⟨s, tier1Inner_seen_mono cluster tgs acc s hs, ?_⟩
        rw [sameSet_comm]
        exact hss
      · rw [if_neg hseen]
        refine ⟨mergedKeys cluster tg, ?_, sameSet_refl _⟩
        exact tier1Inner_seen_mono cluster tgs _ _ (by simp)
    · rw [tier1Inner]
      by_cases hov0 : 2 ≤ (overlapOf cluster tg0).length
      · rw [if_pos hov0]
        by_cases hseen : acc.2.any (sameSet (mergedKeys cluster tg0))
        · rw [if_pos hseen]
          exact tier1Inner_present cluster tgs acc tg htg hov
        · rw [if_neg hseen]
          exact tier1Inner_present cluster tgs _ tg htg hov
      · rw [if_neg hov0]
        exact tier1Inner_present cluster tgs acc tg htg hov

theorem tier1Outer_present :
    ∀ (crs tgs : List (List LogEntry)) (acc : MergeAcc) (cluster tg : List LogEntry),
      cluster ∈ crs → tg ∈ tgs → 2 ≤ (overlapOf cluster tg).length →
      ∃ s ∈ (tier1Outer tgs crs acc).2, sameSet s (mergedKeys cluster tg) = true
  | [], _, _, cluster, _, hc, _, _ => absurd hc (List.not_mem_nil cluster)
  | cluster0 :: crs, tgs, acc, cluster, tg, hc, htg, hov => by
    rcases List.mem_cons.mp hc with rfl | hc
    · rw [tier1Outer]
      obtain ⟨s, hs, hss⟩ := tier1Inner_present cluster tgs acc tg htg hov
      exact ⟨s, tier1Outer_seen_mono crs tgs _ s hs, hss⟩
    · rw [tier1Outer]
      exact tier1Outer_present crs tgs _ cluster tg hc htg hov

theorem tier1Inner_pairwise (cluster : List LogEntry) :
    ∀ (tgs : List (List LogEntry)) (acc : MergeAcc),
      acc.2.Pairwise (fun a b => sameSet a b = false) →
      (tier1Inner cluster tgs acc).2.Pairwise (fun a b => sameSet a b = false)
  | [], _, h => h
  | tg :: tgs, acc, h => by
    rw [tier1Inner]
    by_cases hov : 2 ≤ (overlapOf cluster tg).length
    · rw [if_pos hov]
      by_cases hseen : acc.2.any (sameSet (mergedKeys cluster tg))
      · rw [if_pos hseen]
        exact tier1Inner_pairwise cluster tgs acc h
      · rw [if_neg hseen]
        refine tier1Inner_pairwise cluster tgs _ ?_
        rw [List.pairwise_append]
        refine ⟨h, List.pairwise_singleton _ _, ?_⟩
        intro a ha b hb
        rw [List.mem_singleton] at hb
        subst hb
        have := List.any_eq_false.mp (Bool.not_eq_true _ ▸ hseen) a ha
        rw [sameSet_comm]
        exact Bool.not_eq_true _ |>.mp this
    · rw [if_neg hov]
      exact tier1Inner_pairwise cluster tgs acc h

theorem tier1Outer_pairwise :
    ∀ (crs tgs : List (List LogEntry)) (acc : MergeAcc),
      acc.2.Pairwise (fun a b => sameSet a b = false) →
      (tier1Outer tgs crs acc).2.Pairwise (fun a b => sameSet a b = false)
  | [], _, _, h => h
  | cluster :: crs, tgs, acc, h =>
    tier1Outer_pairwise crs tgs _ (tier1Inner_pairwise cluster tgs acc h)

/-- C4: for every (cross-ref cluster, time group) pair with at least two
common line numbers, the merged candidate's line-number list is
duplicate-free and holds exactly the union of the two inputs' line numbers;
a candidate with that line-number set appears in the tier-1 output, and no
two tier-1 candidates share the same line-number set (deduplication). -/
theorem C4_overlap_merge (tgs crs : List (List LogEntry)) (cluster tg : List LogEntry)
    (hc : cluster ∈ crs) (ht : tg ∈ tgs)
    (hov : 2 ≤ (overlapOf cluster tg).length) :
    (∀ x, x ∈ keyListOf (mergeTwo cluster tg) ↔
        x ∈ cluster.map lineNum ∨ x ∈ tg.map lineNum) ∧
    (keyListOf (mergeTwo cluster tg)).Nodup ∧
    (∃ c ∈ tier1Out tgs crs,
      sameSet (keyListOf c) (keyListOf (mergeTwo cluster tg)) = true) ∧
    (tier1Out tgs crs).Pairwise
      (fun a b => sameSet (keyListOf a) (keyListOf b) = false) := by
  have hkeys := mergedKeys_eq cluster tg
  refine ⟨?_, ?_, ?_, ?_⟩
  · intro x
    rw [← hkeys]
    exact mem_mergedKeys x cluster tg
  · rw [← hkeys]
    exact mergedKeys_nodup cluster tg
  · obtain ⟨s, hs, hss⟩ := tier1Outer_present crs tgs ([], []) cluster tg hc ht hov
    have hlock := tier1Outer_lockstep crs tgs ([], []) rfl
    rw [hlock] at hs
    obtain ⟨c, hcmem, rfl⟩ := List.mem_map.mp hs
    exact ⟨c, hcmem, by rw [← hkeys]; exact hss⟩
  · have hpw := tier1Outer_pairwise crs tgs ([], []) (List.Pairwise.nil)
    have hlock := tier1Outer_lockstep crs tgs ([], []) rfl
    rw [hlock] at hpw
    exact (List.pairwise_map).mp hpw

/-- Witness for C4_overlap_merge: a cross-ref cluster with lines `[1, 2]`
and a time group with lines `[1, 2, 3]` share two line numbers. -/
theorem C4_overlap_merge_witness :
    [c4w 1, c4w 2] ∈ [[c4w 1, c4w 2]] ∧
    [c4w 1, c4w 2, c4w 3] ∈ [[c4w 1, c4w 2, c4w 3]] ∧
    2 ≤ (overlapOf [c4w 1, c4w 2] [c4w 1, c4w 2, c4w 3]).length ∧
    ((∀ x, x ∈ keyListOf (mergeTwo [c4w 1, c4w 2] [c4w 1, c4w 2, c4w 3]) ↔
        x ∈ [c4w 1, c4w 2].map lineNum ∨ x ∈ [c4w 1, c4w 2, c4w 3].map lineNum) ∧
      (keyListOf (mergeTwo [c4w 1, c4w 2] [c4w 1, c4w 2, c4w 3])).Nodup ∧
      (∃ c ∈ tier1Out [[c4w 1, c4w 2, c4w 3]] [[c4w 1, c4w 2]],
        sameSet (keyListOf c)
          (keyListOf (mergeTwo [c4w 1, c4w 2] [c4w 1, c4w 2, c4w 3])) = true) ∧
      (tier1Out [[c4w 1, c4w 2, c4w 3]] [[c4w 1, c4w 2]]).Pairwise
        (fun a b => sameSet (keyListOf a) (keyListOf b) = false)) :=
  ⟨by decide, by decide, by decide,
    C4_overlap_merge [[c4w 1, c4w 2, c4w 3]] [[c4w 1, c4w 2]] [c4w 1, c4w 2]
      [c4w 1, c4w 2, c4w 3] (by decide) (by decide) (by decide)⟩

/-! ### C5: cluster size and line-number distinctness invariants -/

theorem insKey_perm {α : Type} (key : α → Nat) (x : α) :
    ∀ l : List α, (insKey key x l).Perm (x :: l)
  | [] => List.Perm.refl _
  | y :: ys => by
    rw [insKey]
    by_cases h : key x < key y
    · rw [if_pos h]
    · rw [if_neg h]
      exact List.Perm.trans (List.Perm.cons y (insKey_perm key x ys)) (List.Perm.swap x y ys)

theorem sortKey_fold_perm {α : Type} (key : α → Nat) :
    ∀ (l acc : List α), (l.foldl (fun a x => insKey key x a) acc).Perm (acc ++ l)
  | [], acc => by simp
  | x :: l, acc => by
    rw [List.foldl_cons]
    refine List.Perm.trans (sortKey_fold_perm key l _) ?_
    refine List.Perm.trans ((insKey_perm key x acc).append_right l) ?_
    simp only [List.cons_append]
    exact List.perm_middle.symm

/-- Python's stable sort permutes its input. -/
theorem sortKey_perm {α : Type} (key : α → Nat) (l : List α) : (sortKey key l).Perm l := by
  simpa using sortKey_fold_perm key l []

/-- The records of the timed list form a sublist of the input records. -/
theorem filterMap_timed_sublist :
    ∀ entries : List LogEntry,
      ((entries.filterMap (fun e => (parseTimestamp (tsOf e)).map (fun t => (t, e)))).map
        Prod.snd).Sublist entries
  | [] => by simp
  | e :: rest => by
    cases hp : parseTimestamp (tsOf e) with
    | some t =>
      rw [List.filterMap_cons_some (by rw [hp]; rfl), List.map_cons]
      exact (filterMap_timed_sublist rest).cons₂ e
    | none =>
      rw [List.filterMap_cons_none (by rw [hp]; rfl)]
      exact (filterMap_timed_sublist rest).cons e

/-- Distinct line numbers in the input batch survive into the sorted timed
list. -/
theorem timedOf_keyList_nodup (entries : List LogEntry)
    (hN : (entries.map lineNum).Nodup) :
    (keyListOf ((timedOf entries).map Prod.snd)).Nodup := by
  have hperm : ((timedOf entries).map Prod.snd).Perm
      ((entries.filterMap (fun e => (parseTimestamp (tsOf e)).map (fun t => (t, e)))).map
        Prod.snd) :=
    (sortKey_perm Prod.fst _).map Prod.snd
  have hsub := (filterMap_timed_sublist entries).map lineNum
  have hnd : (((entries.filterMap
      (fun e => (parseTimestamp (tsOf e)).map (fun t => (t, e)))).map Prod.snd).map
        lineNum).Nodup := hsub.nodup hN
  exact (hperm.map lineNum).nodup_iff.mpr hnd

theorem groupLoop_two_le (w : Nat) :
    ∀ (rest : List (Nat × LogEntry)) (cur : List LogEntry) (start : Nat) (g : List LogEntry),
      g ∈ groupLoop w rest cur start → 2 ≤ g.length
  | [], cur, start, g, hg => by
    rw [groupLoop] at hg
    by_cases h : 2 ≤ cur.length
    · rw [if_pos h, List.mem_singleton] at hg
      subst hg
      exact h
    · rw [if_neg h] at hg
      exact absurd hg (List.not_mem_nil g)
  | (dt, e) :: rest, cur, start, g, hg => by
    rw [groupLoop] at hg
    by_cases hw : (dt : Int) - (start : Int) ≤ (w : Int)
    · rw [if_pos hw] at hg
      exact groupLoop_two_le w rest _ start g hg
    · rw [if_neg hw] at hg
      rcases List.mem_append.mp hg with hg | hg
      · by_cases h : 2 ≤ cur.length
        · rw [if_pos h, List.mem_singleton] at hg
          subst hg
          exact h
        · rw [if_neg h] at hg
          exact absurd hg (List.not_mem_nil g)
      · exact groupLoop_two_le w rest _ dt g hg

theorem groupLoop_nodup (w : Nat) :
    ∀ (rest : List (Nat × LogEntry)) (cur : List LogEntry) (start : Nat),
      (keyListOf (cur ++ rest.map Prod.snd)).Nodup →
      ∀ g ∈ groupLoop w rest cur start, (keyListOf g).Nodup
  | [], cur, start, h, g, hg => by
    rw [groupLoop] at hg
    by_cases h2 : 2 ≤ cur.length
    · rw [if_pos h2, List.mem_singleton] at hg
      subst hg
      simpa [keyListOf] using h
    · rw [if_neg h2] at hg
      exact absurd hg (List.not_mem_nil g)
  | (dt, e) :: rest, cur, start, h, g, hg => by
    rw [groupLoop] at hg
    by_cases hw : (dt : Int) - (start : Int) ≤ (w : Int)
    · rw [if_pos hw] at hg
      refine groupLoop_nodup w rest (cur ++ [e]) start ?_ g hg
      have heq : keyListOf ((cur ++ [e]) ++ rest.map Prod.snd) =
          keyListOf (cur ++ ((dt, e) :: rest).map Prod.snd) := by
        simp [keyListOf]
      rw [heq]
      exact h
    · rw [if_neg hw] at hg
      rcases List.mem_append.mp hg with hg | hg
      · by_cases h2 : 2 ≤ cur.length
        · rw [if_pos h2, List.mem_singleton] at hg
          subst hg
          have h3 := h
          rw [keyListOf, List.map_append] at h3
          exact List.Nodup.of_append_left h3
        · rw [if_neg h2] at hg
          exact absurd hg (List.not_mem_nil g)
      · refine groupLoop_nodup w rest [e] dt ?_ g hg
        have hsub : (keyListOf ([e] ++ rest.map Prod.snd)).Sublist
            (keyListOf (cur ++ ((dt, e) :: rest).map Prod.snd)) := by
          simp only [keyListOf, List.map_append, List.map_cons, List.singleton_append]
          exact List.sublist_append_right _ _
        exact hsub.nodup h

theorem buildTimeGroups_two_le (entries : List LogEntry) (w : Nat) (g : List LogEntry)
    (hg : g ∈ buildTimeGroups entries w) : 2 ≤ g.length := by
  unfold buildTimeGroups at hg
  cases htimed : timedOf entries with
  | nil =>
    rw [htimed] at hg
    exact absurd hg (List.not_mem_nil g)
  | cons te rest =>
    rw [htimed] at hg
    exact groupLoop_two_le w rest [te.2] te.1 g hg

theorem buildTimeGroups_nodup (entries : List LogEntry) (w : Nat)
    (hN : (entries.map lineNum).Nodup) :
    ∀ g ∈ buildTimeGroups entries w, (keyListOf g).Nodup := by
  intro g hg
  unfold buildTimeGroups at hg
  cases htimed : timedOf entries with
  | nil =>
    rw [htimed] at hg
    exact absurd hg (List.not_mem_nil g)
  | cons te rest =>
    rw [htimed] at hg
    refine groupLoop_nodup w rest [te.2] te.1 ?_ g hg
    have := timedOf_keyList_nodup entries hN
    rw [htimed] at this
    simpa [keyListOf] using this

/-- Indices drawn from distinct positions of a batch with duplicate-free
line numbers yield a cluster with duplicate-free line numbers. -/
theorem keyListOf_filterMap_get_nodup (entries : List LogEntry)
    (hN : (entries.map lineNum).Nodup) :
    ∀ js : List Nat, js.Nodup → (∀ j ∈ js, j < entries.length) →
      (keyListOf (js.filterMap (fun i => entries.get? i))).Nodup
  | [], _, _ => by simp [keyListOf]
  | j :: js, hnd, hb => by
    rw [List.nodup_cons] at hnd
    have hj : j < entries.length := hb j (List.mem_cons_self _ _)
    obtain ⟨e, he⟩ : ∃ e, entries.get? j = some e := by
      rw [List.get?_eq_get hj]
      exact ⟨_, rfl⟩
    rw [List.filterMap_cons_some he]
    rw [keyListOf, List.map_cons, List.nodup_cons]
    constructor
    · intro hmem
      obtain ⟨e2, he2mem, he2⟩ := List.mem_map.mp hmem
      obtain ⟨j2, hj2mem, hj2⟩ := List.mem_filterMap.mp he2mem
      have hj2lt : j2 < entries.length := hb j2 (List.mem_cons_of_mem _ hj2mem)
      have hm1 : (entries.map lineNum).get? j = some (lineNum e) := by
        rw [List.get?_map, he]
        rfl
      have hm2 : (entries.map lineNum).get? j2 = some (lineNum e2) := by
        rw [List.get?_map, hj2]
        rfl
      have hjj : j = j2 := by
        refine List.get?_inj ?_ hN ?_
        · simpa using hj
        · rw [hm1, hm2, he2]
      exact hnd.1 (hjj ▸ hj2mem)
    · exact keyListOf_filterMap_get_nodup entries hN js hnd.2
        (fun q hq => hb q (List.mem_cons_of_mem _ hq))

theorem addIdx_inv (k : String) (i n : Nat) (hi : i < n) :
    ∀ m : List (String × List Nat),
      (∀ kv ∈ m, kv.2.Nodup ∧ ∀ j ∈ kv.2, j < n) →
      ∀ kv ∈ addIdx k i m, kv.2.Nodup ∧ ∀ j ∈ kv.2, j < n
  | [], _, kv, hkv => by
    simp only [addIdx, List.mem_singleton] at hkv
    subst hkv
    exact ⟨List.nodup_singleton i, by simpa using hi⟩
  | (k0, l) :: rest, hm, kv, hkv => by
    rw [addIdx] at hkv
    by_cases hk : k0 = k
    · rw [if_pos hk] at hkv
      rcases List.mem_cons.mp hkv with rfl | hkv
      · have hml := hm (k0, l) (List.mem_cons_self _ _)
        by_cases hmem : i ∈ l
        · simpa [hmem] using hml
        · have hcond : l.contains i = false := by simpa using hmem
          rw [hcond]
          rw [if_neg (by simp)]
          constructor
          · simp only [List.nodup_append, List.nodup_singleton]
            refine ⟨hml.1, trivial, ?_⟩
            intro a ha hai
            exact hmem ((List.mem_singleton.mp hai) ▸ ha)
          · intro j hj
            rcases List.mem_append.mp hj with hj | hj
            · exact hml.2 j hj
            · rw [List.mem_singleton] at hj
              subst hj
              exact hi
      · exact hm kv (List.mem_cons_of_mem _ hkv)
    · rw [if_neg hk] at hkv
      rcases List.mem_cons.mp hkv with rfl | hkv
      · exact hm _ (List.mem_cons_self _ _)
      · exact addIdx_inv k i n hi rest (fun q hq => hm q (List.mem_cons_of_mem _ hq)) kv hkv

theorem crossRefEntry_inv (esvc : String) (msgL : List Char) (i n : Nat) (hi : i < n) :
    ∀ (svcs : List String) (m : List (String × List Nat)),
      (∀ kv ∈ m, kv.2.Nodup ∧ ∀ j ∈ kv.2, j < n) →
      ∀ kv ∈ crossRefEntry svcs esvc msgL i m, kv.2.Nodup ∧ ∀ j ∈ kv.2, j < n
  | [], m, hm => hm
  | svc :: svcs, m, hm => by
    intro kv hkv
    rw [crossRefEntry, List.foldl_cons] at hkv
    by_cases hcond : (strLower svc ≠ esvc && containsSub (toLowerL svc.toList) msgL) = true
    · rw [if_pos hcond] at hkv
      exact crossRefEntry_inv esvc msgL i n hi svcs _
        (addIdx_inv esvc i n hi _ (addIdx_inv (strLower svc) i n hi m hm)) kv hkv
    · rw [if_neg hcond] at hkv
      exact crossRefEntry_inv esvc msgL i n hi svcs m hm kv hkv

theorem crossRefFold_inv (svcs : List String) :
    ∀ (l : List LogEntry) (i : Nat) (m : List (String × List Nat)),
      (∀ kv ∈ m, kv.2.Nodup ∧ ∀ j ∈ kv.2, j < i) →
      ∀ kv ∈ crossRefFold svcs l i m, kv.2.Nodup ∧ ∀ j ∈ kv.2, j < i + l.length
  | [], i, m, hm => by
    intro kv hkv
    rw [crossRefFold] at hkv
    exact ⟨(hm kv hkv).1, fun j hj => lt_of_lt_of_le ((hm kv hkv).2 j hj) (by simp)⟩
  | e :: l, i, m, hm => by
    intro kv hkv
    rw [crossRefFold] at hkv
    have hm1 : ∀ kv ∈ crossRefEntry svcs (strLower (svcOfRoot e))
        (toLowerL (msgOf e).toList) i m, kv.2.Nodup ∧ ∀ j ∈ kv.2, j < i + 1 :=
      crossRefEntry_inv _ _ i (i + 1) (Nat.lt_succ_self i) svcs m
        (fun q hq => ⟨(hm q hq).1, fun j hj => Nat.lt_succ_of_lt ((hm q hq).2 j hj)⟩)
    have hres := crossRefFold_inv svcs l (i + 1) _ hm1 kv hkv
    refine ⟨hres.1, fun j hj => ?_⟩
    have := hres.2 j hj
    simp only [List.length_cons]
    omega

theorem clusterGo_two_le (entries : List LogEntry) :
    ∀ (ls : List (List Nat)) (seen : List Nat) (c : List LogEntry),
      c ∈ clusterGo entries ls seen → 2 ≤ c.length
  | [], _, c, hc => absurd hc (List.not_mem_nil c)
  | idxs :: rest, seen, c, hc => by
    rw [clusterGo] at hc
    by_cases h1 : 2 ≤ (idxs.filter (fun i => !seen.contains i)).length
    · rw [if_pos h1] at hc
      by_cases h2 : 2 ≤ ((sortNat (idxs.filter (fun i => !seen.contains i))).filterMap
          (fun i => entries.get? i)).length
      · rw [if_pos h2] at hc
        rcases List.mem_cons.mp hc with rfl | hc
        · exact h2
        · exact clusterGo_two_le entries rest _ c hc
      · rw [if_neg h2] at hc
        exact clusterGo_two_le entries rest _ c hc
    · rw [if_neg h1] at hc
      exact clusterGo_two_le entries rest _ c hc

theorem clusterGo_nodup (entries : List LogEntry)
    (hN : (entries.map lineNum).Nodup) :
    ∀ (ls : List (List Nat)) (seen : List Nat),
      (∀ l ∈ ls, l.Nodup ∧ ∀ j ∈ l, j < entries.length) →
      ∀ c ∈ clusterGo entries ls seen, (keyListOf c).Nodup
  | [], _, _, c, hc => absurd hc (List.not_mem_nil c)
  | idxs :: rest, seen, hls, c, hc => by
    have htail : ∀ l ∈ rest, l.Nodup ∧ ∀ j ∈ l, j < entries.length :=
      fun l hl => hls l (List.mem_cons_of_mem _ hl)
    rw [clusterGo] at hc
    by_cases h1 : 2 ≤ (idxs.filter (fun i => !seen.contains i)).length
    · rw [if_pos h1] at hc
      by_cases h2 : 2 ≤ ((sortNat (idxs.filter (fun i => !seen.contains i))).filterMap
          (fun i => entries.get? i)).length
      · rw [if_pos h2] at hc
        rcases List.mem_cons.mp hc with rfl | hc
        · have hidx := hls idxs (List.mem_cons_self _ _)
          have hci : (idxs.filter (fun i => !seen.contains i)).Nodup := hidx.1.filter _
          have hperm := sortKey_perm (fun i => i) (idxs.filter (fun i => !seen.contains i))
          refine keyListOf_filterMap_get_nodup entries hN _ ?_ ?_
          · exact hperm.nodup_iff.mpr hci
          · intro j hj
            exact hidx.2 j (List.mem_of_mem_filter (hperm.mem_iff.mp hj))
        · exact clusterGo_nodup entries hN rest _ htail c hc
      · rw [if_neg h2] at hc
        exact clusterGo_nodup entries hN rest _ htail c hc
    · rw [if_neg h1] at hc
      exact clusterGo_nodup entries hN rest _ htail c hc

theorem findCrossReferences_two_le (entries : List LogEntry) (svcs : List String)
    (c : List LogEntry) (hc : c ∈ findCrossReferences entries svcs) : 2 ≤ c.length := by
  unfold findCrossReferences at hc
  by_cases he : (crossRefFold svcs entries 0 []).isEmpty
  · rw [if_pos he] at hc
    exact absurd hc (List.not_mem_nil c)
  · rw [if_neg he] at hc
    exact clusterGo_two_le entries _ [] c hc

theorem findCrossReferences_nodup (entries : List LogEntry) (svcs : List String)
    (hN : (entries.map lineNum).Nodup) (c : List LogEntry)
    (hc : c ∈ findCrossReferences entries svcs) : (keyListOf c).Nodup := by
  unfold findCrossReferences at hc
  by_cases he : (crossRefFold svcs entries 0 []).isEmpty
  · rw [if_pos he] at hc
    exact absurd hc (List.not_mem_nil c)
  · rw [if_neg he] at hc
    refine clusterGo_nodup entries hN _ [] ?_ c hc
    intro l hl
    obtain ⟨kv, hkv, rfl⟩ := List.mem_map.mp hl
    have := crossRefFold_inv svcs entries 0 [] (by simp) kv hkv
    simpa using this

theorem tier1Inner_cands (cluster : List LogEntry) :
    ∀ (tgs : List (List LogEntry)) (acc : MergeAcc),
      (∀ c ∈ acc.1, 2 ≤ c.length ∧ (keyListOf c).Nodup) →
      ∀ c ∈ (tier1Inner cluster tgs acc).1, 2 ≤ c.length ∧ (keyListOf c).Nodup
  | [], _, h => h
  | tg :: tgs, acc, h => by
    rw [tier1Inner]
    by_cases hov : 2 ≤ (overlapOf cluster tg).length
    · rw [if_pos hov]
      by_cases hseen : acc.2.any (sameSet (mergedKeys cluster tg))
      · rw [if_pos hseen]
        exact tier1Inner_cands cluster tgs acc h
      · rw [if_neg hseen]
        refine tier1Inner_cands cluster tgs _ ?_
        intro c hc
        rcases List.mem_append.mp hc with hc | hc
        · exact h c hc
        · rw [List.mem_singleton] at hc
          subst hc
          refine ⟨two_le_mergeTwo cluster tg hov, ?_⟩
          rw [← mergedKeys_eq]
          exact mergedKeys_nodup cluster tg
    · rw [if_neg hov]
      exact tier1Inner_cands cluster tgs acc h

theorem tier1Outer_cands :
    ∀ (crs tgs : List (List LogEntry)) (acc : MergeAcc),
      (∀ c ∈ acc.1, 2 ≤ c.length ∧ (keyListOf c).Nodup) →
      ∀ c ∈ (tier1Outer tgs crs acc).1, 2 ≤ c.length ∧ (keyListOf c).Nodup
  | [], _, _, h => h
  | cluster :: crs, tgs, acc, h =>
    tier1Outer_cands crs tgs _ (tier1Inner_cands cluster tgs acc h)

theorem tier2Go_sub :
    ∀ (crs : List (List LogEntry)) (acc : MergeAcc) (c : List LogEntry),
      c ∈ (tier2Go crs acc).1 → c ∈ acc.1 ∨ c ∈ crs
  | [], _, c, hc => Or.inl hc
  | cl :: crs, acc, c, hc => by
    rw [tier2Go] at hc
    by_cases hseen : acc.2.any (sameSet (lineSet cl))
    · rw [if_pos hseen] at hc
      rcases tier2Go_sub crs acc c hc with h | h
      · exact Or.inl h
      · exact Or.inr (List.mem_cons_of_mem _ h)
    · rw [if_neg hseen] at hc
      rcases tier2Go_sub crs _ c hc with h | h
      · rcases List.mem_append.mp h with h | h
        · exact Or.inl h
        · rw [List.mem_singleton] at h
          exact Or.inr (h ▸ List.mem_cons_self _ _)
      · exact Or.inr (List.mem_cons_of_mem _ h)

theorem tier3Go_sub :
    ∀ (tgs : List (List LogEntry)) (acc : MergeAcc) (c : List LogEntry),
      c ∈ (tier3Go tgs acc).1 → c ∈ acc.1 ∨ c ∈ tgs
  | [], _, c, hc => Or.inl hc
  | tg :: tgs, acc, c, hc => by
    rw [tier3Go] at hc
    by_cases hseen : acc.2.any (sameSet (lineSet tg))
    · rw [if_pos hseen] at hc
      rcases tier3Go_sub tgs acc c hc with h | h
      · exact Or.inl h
      · exact Or.inr (List.mem_cons_of_mem _ h)
    · rw [if_neg hseen] at hc
      rcases tier3Go_sub tgs _ c hc with h | h
      · rcases List.mem_append.mp h with h | h
        · exact Or.inl h
        · rw [List.mem_singleton] at h
          exact Or.inr (h ▸ List.mem_cons_self _ _)
      · exact Or.inr (List.mem_cons_of_mem _ h)

/-- C5 (amended): every cluster produced by CandidateMerger has at least 2
records, and — provided the input batch's line numbers (an absent field
counting as 0) are pairwise distinct — never contains two records with the
same line_number.  Without that proviso tier-2/tier-3 clusters can repeat a
line number, since they pass input records through unchanged (see the
counterexample). -/
theorem C5_cluster_invariants (log_entries : List LogEntry) (c : List LogEntry)
    (hc : c ∈ candidatesOf log_entries) :
    2 ≤ c.length ∧ ((log_entries.map lineNum).Nodup → (keyListOf c).Nodup) := by
  unfold candidatesOf at hc
  by_cases hlen : (actionableOf log_entries).length < 2
  · rw [if_pos hlen] at hc
    exact absurd hc (List.not_mem_nil c)
  · rw [if_neg hlen, mergeCandidates_eq] at hc
    have hNact : (log_entries.map lineNum).Nodup →
        ((actionableOf log_entries).map lineNum).Nodup := by
      intro hN
      exact ((List.filter_sublist log_entries).map lineNum).nodup hN
    by_cases h1 : tier1Out (buildTimeGroups (actionableOf log_entries))
        (findCrossReferences (actionableOf log_entries) (allServices log_entries)) = []
    · rw [if_pos h1] at hc
      by_cases h2 : tier2Out
          (findCrossReferences (actionableOf log_entries) (allServices log_entries)) = []
      · rw [if_pos h2] at hc
        rcases tier3Go_sub _ ([], []) c hc with h | h
        · exact absurd h (List.not_mem_nil c)
        · exact ⟨buildTimeGroups_two_le _ _ c h,
            fun hN => buildTimeGroups_nodup _ _ (hNact hN) c h⟩
      · rw [if_neg h2] at hc
        rcases tier2Go_sub _ ([], []) c hc with h | h
        · exact absurd h (List.not_mem_nil c)
        · exact ⟨findCrossReferences_two_le _ _ c h,
            fun hN => findCrossReferences_nodup _ _ (hNact hN) c h⟩
    · rw [if_neg h1] at hc
      have := tier1Outer_cands _ _ ([], []) (by simp) c hc
      exact ⟨this.1, fun _ => this.2⟩

/-- Witness for C5_cluster_invariants: a batch of two time-parsable records
10 s apart produces exactly one (tier-3) cluster. -/
theorem C5_cluster_invariants_witness :
    [c5T1, c5T2] ∈ candidatesOf [c5T1, c5T2] ∧
      (2 ≤ ([c5T1, c5T2] : List LogEntry).length ∧
        ((([c5T1, c5T2] : List LogEntry).map lineNum).Nodup →
          (keyListOf [c5T1, c5T2]).Nodup)) :=
  ⟨by decide, C5_cluster_invariants [c5T1, c5T2] [c5T1, c5T2] (by decide)⟩

/-- C5 counterexample: two actionable records with identical `line_number`
(and unparsable timestamps) that textually reference each other's service
form a single tier-2 cluster in which the line number 7 occurs twice.  The
output is the same for either iteration order of the service-name set. -/
theorem C5_counterexample :
    candidatesOf [c5A, c5B] = [[c5A, c5B]] ∧
    mergeCandidates (buildTimeGroups (actionableOf [c5A, c5B]))
      (findCrossReferences (actionableOf [c5A, c5B]) ["b", "a"]) = [[c5A, c5B]] ∧
    lineNum c5A = 7 ∧ lineNum c5B = 7 ∧ c5A ≠ c5B ∧
    ¬ (keyListOf [c5A, c5B]).Nodup :=
  ⟨by decide, by decide, by decide, by decide, by decide, by decide⟩

end DevOpsSuite
